import Mathlib

/-!
Verification of the bank-statement-processor core against its specification.

The repository converts bank statement documents into normalized transaction
records and assigns categories.  This file gives a shallow embedding of the
relevant source functions:

* `group_spans_by_row`                (src/rbc2/extractors.py and
                                       src/bank_statement_processor/extractors.py,
                                       both copies are identical)
* the Visa (card-style) extractor     (src/bank_statement_processor/extractors.py)
* the Chequing/Savings extractor      (src/bank_statement_processor/extractors.py)
* `iso8601_date`, `normalize_csv`     (src/rbc2/processors.py)
* the classifier (exact + fuzzy)      (src/bank_statement_processor/classifier.py
                                       and the cluster variant src/rbc2/classifier.py)

Modelling conventions:
* Python floats are modelled as `ℚ`; page coordinates and monetary amounts are
  exact decimals in the documents, so no rounding behaviour is lost.
* Python strings are modelled as Lean `String` / `List Char`, restricted to
  the ASCII behaviour of `str.lower`, `str.upper`, `str.strip` (all statement
  text handled by the code is ASCII).
* Python regexes are modelled either by a small backtracking-splits engine
  (for the classifier's ID-stripping patterns, where backtracking order
  matters) or by direct deterministic scanners (for the anchored row-grammar
  patterns, where greedy matching is forced because consecutive atoms have
  disjoint character classes).
-/

namespace BankStmt

/-! ### Character and string utilities (ASCII model of Python str operations) -/

/-- Python `\s` (ASCII range): space, tab, newline, carriage return,
vertical tab, form feed. -/
def isPyWs (c : Char) : Bool :=
  c = ' ' || c = '\t' || c = '\n' || c = '\r' || c = '\x0b' || c = '\x0c'

def isDigitC (c : Char) : Bool := '0' ≤ c && c ≤ '9'

def isUpperC (c : Char) : Bool := 'A' ≤ c && c ≤ 'Z'

def isLowerC (c : Char) : Bool := 'a' ≤ c && c ≤ 'z'

/-- An ASCII letter (what `[^a-z]` with `re.IGNORECASE` excludes). -/
def isAlphaC (c : Char) : Bool := isLowerC c || isUpperC c

/-- Python word character `\w` (ASCII): letters, digits, underscore. -/
def isWordC (c : Char) : Bool := isAlphaC c || isDigitC c || c = '_'

/-- Models Python `str.lower()` on ASCII text. -/
def toLowerL (l : List Char) : List Char := l.map Char.toLower

/-- Models Python `str.upper()` on ASCII text. -/
def toUpperL (l : List Char) : List Char := l.map Char.toUpper

/-- Models Python `str.strip()` (ASCII whitespace). -/
def stripWsL (l : List Char) : List Char :=
  ((l.dropWhile isPyWs).reverse.dropWhile isPyWs).reverse

def stripWs (s : String) : String := String.mk (stripWsL s.data)

/-- `startsWithL needle hay`: `hay` begins with `needle`. -/
def startsWithL : List Char → List Char → Bool
  | [], _ => true
  | _ :: _, [] => false
  | a :: as, b :: bs => a = b && startsWithL as bs

/-- `containsL needle hay`: models Python `needle in hay` (substring test). -/
def containsL (needle : List Char) : List Char → Bool
  | [] => startsWithL needle []
  | c :: cs => startsWithL needle (c :: cs) || containsL needle cs

def containsStr (hay needle : String) : Bool := containsL needle.data hay.data

/-- Models Python `" ".join(parts)`. -/
def joinSpace : List String → String
  | [] => ""
  | [s] => s
  | s :: rest => s ++ " " ++ joinSpace rest

/-! ### Text spans and row grouping

A `Span` models one positioned text fragment: the dicts
`{"text": ..., "x": bbox[0], "y": bbox[1]}` built by both extractors. -/

structure Span where
  text : String
  x : ℚ
  y : ℚ
  deriving DecidableEq, Repr

/-- The lexicographic `(y, x)` order used by `all_spans.sort(key=lambda s: (s["y"], s["x"]))`. -/
def spanLeYX (a b : Span) : Prop := a.y < b.y ∨ (a.y = b.y ∧ a.x ≤ b.x)

instance : DecidableRel spanLeYX := fun a b => by unfold spanLeYX; infer_instance

instance : IsTotal Span spanLeYX :=
  ⟨fun a b => by
    unfold spanLeYX
    rcases lt_trichotomy a.y b.y with h | h | h
    · exact Or.inl (Or.inl h)
    · rcases le_total a.x b.x with h2 | h2
      · exact Or.inl (Or.inr ⟨h, h2⟩)
      · exact Or.inr (Or.inr ⟨h.symm, h2⟩)
    · exact Or.inr (Or.inl h)⟩

instance : IsTrans Span spanLeYX :=
  ⟨fun a b c hab hbc => by
    unfold spanLeYX at *
    rcases hab with h1 | ⟨h1, h1'⟩ <;> rcases hbc with h2 | ⟨h2, h2'⟩
    · exact Or.inl (h1.trans h2)
    · exact Or.inl (h2 ▸ h1)
    · exact Or.inl (h1 ▸ h2)
    · exact Or.inr ⟨h1.trans h2, h1'.trans h2'⟩⟩

/-- The x-only order used by `current_row.sort(key=lambda s: s["x"])`. -/
def spanLeX (a b : Span) : Prop := a.x ≤ b.x

instance : DecidableRel spanLeX := fun a b => by unfold spanLeX; infer_instance

instance : IsTotal Span spanLeX := ⟨fun a b => le_total a.x b.x⟩

instance : IsTrans Span spanLeX := ⟨fun _ _ _ h1 h2 => le_trans h1 h2⟩

/-- Models Python's stable `list.sort(key=lambda s: (s["y"], s["x"]))`
(insertion sort is stable, like CPython's timsort). -/
def sortSpansYX (l : List Span) : List Span := l.insertionSort spanLeYX

/-- Models Python's stable `current_row.sort(key=lambda s: s["x"])`. -/
def sortRowX (row : List Span) : List Span := row.insertionSort spanLeX

/-- The walking loop of `group_spans_by_row`: `curY` is the y of the current
row's first span, `cur` the current row in arrival order. -/
def groupGo (tol : ℚ) (curY : ℚ) (cur : List Span) : List Span → List (List Span)
  | [] => [sortRowX cur]
  | s :: rest =>
    if |s.y - curY| ≤ tol then groupGo tol curY (cur ++ [s]) rest
    else sortRowX cur :: groupGo tol s.y [s] rest

/-- `group_spans_by_row(spans, y_tolerance)` from both extractors.py files
(identical in the two packages): group already-(y,x)-sorted spans into rows by
y-proximity to the row's first span, each finished row re-sorted by x. -/
def group_spans_by_row (spans : List Span) (tol : ℚ := 3) : List (List Span) :=
  match spans with
  | [] => []
  | s :: rest => groupGo tol s.y [s] rest

/-- Same walk without the per-row x-sort; used to reason about row contents. -/
def groupGoRaw (tol : ℚ) (curY : ℚ) (cur : List Span) : List Span → List (List Span)
  | [] => [cur]
  | s :: rest =>
    if |s.y - curY| ≤ tol then groupGoRaw tol curY (cur ++ [s]) rest
    else cur :: groupGoRaw tol s.y [s] rest

def groupRaw (spans : List Span) (tol : ℚ := 3) : List (List Span) :=
  match spans with
  | [] => []
  | s :: rest => groupGoRaw tol s.y [s] rest

theorem groupGo_eq_raw (tol curY : ℚ) (cur : List Span) (l : List Span) :
    groupGo tol curY cur l = (groupGoRaw tol curY cur l).map sortRowX := by
  induction l generalizing curY cur with
  | nil => simp [groupGo, groupGoRaw]
  | cons s rest ih =>
    simp only [groupGo, groupGoRaw]
    by_cases h : |s.y - curY| ≤ tol
    · simp [h, ih]
    · simp [h, ih, List.map]

theorem group_eq_raw (spans : List Span) (tol : ℚ) :
    group_spans_by_row spans tol = (groupRaw spans tol).map sortRowX := by
  cases spans with
  | nil => simp [group_spans_by_row, groupRaw]
  | cons s rest => simp [group_spans_by_row, groupRaw, groupGo_eq_raw]

theorem groupGoRaw_join (tol curY : ℚ) (cur : List Span) (l : List Span) :
    (groupGoRaw tol curY cur l).flatten = cur ++ l := by
  induction l generalizing curY cur with
  | nil => simp [groupGoRaw]
  | cons s rest ih =>
    simp only [groupGoRaw]
    by_cases h : |s.y - curY| ≤ tol
    · simp [h, ih]
    · simp [h, ih]

theorem groupRaw_join (spans : List Span) (tol : ℚ) :
    (groupRaw spans tol).flatten = spans := by
  cases spans with
  | nil => simp [groupRaw]
  | cons s rest => simp [groupRaw, groupGoRaw_join]

theorem join_map_sortRowX_perm (rs : List (List Span)) :
    (rs.map sortRowX).flatten.Perm rs.flatten := by
  induction rs with
  | nil => simp
  | cons r rest ih =>
    simp only [List.map, List.flatten]
    exact (List.perm_insertionSort spanLeX r).append ih

/-- Every output row of `group_spans_by_row` is sorted by x. -/
theorem group_rows_sortedX (spans : List Span) (tol : ℚ) :
    ∀ r ∈ group_spans_by_row spans tol, r.Sorted spanLeX := by
  rw [group_eq_raw]
  intro r hr
  rcases List.mem_map.mp hr with ⟨r0, _, rfl⟩
  exact List.sorted_insertionSort spanLeX r0

/-- The multiset of spans is preserved: each input span lands in exactly one
output row (counted with multiplicity). -/
theorem group_join_perm (spans : List Span) (tol : ℚ) :
    (group_spans_by_row spans tol).flatten.Perm spans := by
  rw [group_eq_raw]
  exact (join_map_sortRowX_perm (groupRaw spans tol)).trans
    (by rw [groupRaw_join])

/-- Invariant of the walk: every row of `groupGoRaw` keeps all its spans
within `tol` of its first span's y (for a nonnegative tolerance). -/
theorem groupGoRaw_rows_tol (tol : ℚ) (htol : 0 ≤ tol) (l : List Span) :
    ∀ curY cur h t, cur = h :: t → (∀ s ∈ cur, |s.y - curY| ≤ tol) → curY = h.y →
    ∀ r ∈ groupGoRaw tol curY cur l, ∀ hd, r.head? = some hd →
      ∀ s ∈ r, |s.y - hd.y| ≤ tol := by
  induction l with
  | nil =>
    intro curY cur h t hcur hin hy r hr hd hhd s hs
    simp [groupGoRaw] at hr
    subst hr
    subst hcur
    simp at hhd
    subst hhd
    exact hy ▸ hin s hs
  | cons a rest ih =>
    intro curY cur h t hcur hin hy r hr hd hhd s hs
    simp only [groupGoRaw] at hr
    by_cases hcond : |a.y - curY| ≤ tol
    · rw [if_pos hcond] at hr
      refine ih curY (cur ++ [a]) h (t ++ [a]) (by simp [hcur]) ?_ hy r hr hd hhd s hs
      intro u hu
      rcases List.mem_append.mp hu with hu | hu
      · exact hin u hu
      · simp at hu; subst hu; exact hcond
    · rw [if_neg hcond] at hr
      rcases List.mem_cons.mp hr with hr | hr
      · subst hr
        subst hcur
        simp at hhd
        subst hhd
        exact hy ▸ hin s hs
      · exact ih a.y [a] a [] rfl (by simpa using htol) rfl r hr hd hhd s hs

/-- The first row produced by the walk extends the accumulator `cur`. -/
theorem groupGoRaw_head_ext (tol : ℚ) (l : List Span) :
    ∀ curY cur, ∃ ext rest, groupGoRaw tol curY cur l = (cur ++ ext) :: rest := by
  induction l with
  | nil => intro curY cur; exact ⟨[], [], by simp [groupGoRaw]⟩
  | cons a rest ih =>
    intro curY cur
    simp only [groupGoRaw]
    by_cases hcond : |a.y - curY| ≤ tol
    · rw [if_pos hcond]
      rcases ih curY (cur ++ [a]) with ⟨e, r, he⟩
      exact ⟨[a] ++ e, r, by simpa using he⟩
    · rw [if_neg hcond]
      exact ⟨[], groupGoRaw tol a.y [a] rest, by simp⟩

/-- Adjacent rows of the raw grouping have first-span y's farther apart
than the tolerance (a new row starts exactly when the walk breaks). -/
theorem groupGoRaw_chain (tol : ℚ) (l : List Span) :
    ∀ curY cur h t, cur = h :: t → curY = h.y →
    (groupGoRaw tol curY cur l).Chain'
      (fun r1 r2 => ∀ h1 ∈ r1.head?, ∀ h2 ∈ r2.head?, tol < |h2.y - h1.y|) := by
  induction l with
  | nil => intro curY cur h t hcur hy; simp [groupGoRaw]
  | cons a rest ih =>
    intro curY cur h t hcur hy
    simp only [groupGoRaw]
    by_cases hcond : |a.y - curY| ≤ tol
    · rw [if_pos hcond]
      exact ih curY (cur ++ [a]) h (t ++ [a]) (by simp [hcur]) hy
    · rw [if_neg hcond]
      rcases groupGoRaw_head_ext tol rest a.y [a] with ⟨e, r, he⟩
      rw [he]
      refine List.Chain'.cons ?_ (he ▸ ih a.y [a] a [] rfl rfl)
      intro h1 hh1 h2 hh2
      subst hcur
      simp at hh1 hh2
      subst hh1
      subst hh2
      rw [hy] at hcond
      simpa using lt_of_not_le hcond

theorem groupRaw_chain (spans : List Span) (tol : ℚ) :
    (groupRaw spans tol).Chain'
      (fun r1 r2 => ∀ h1 ∈ r1.head?, ∀ h2 ∈ r2.head?, tol < |h2.y - h1.y|) := by
  cases spans with
  | nil => simp [groupRaw]
  | cons s rest => exact groupGoRaw_chain tol rest s.y [s] s [] rfl rfl

theorem groupRaw_rows_tol (spans : List Span) (tol : ℚ) (htol : 0 ≤ tol) :
    ∀ r ∈ groupRaw spans tol, ∀ hd, r.head? = some hd →
      ∀ s ∈ r, |s.y - hd.y| ≤ tol := by
  cases spans with
  | nil => simp [groupRaw]
  | cons a rest =>
    exact groupGoRaw_rows_tol tol htol rest a.y [a] a [] rfl (by simpa using htol) rfl

/-- C8: on (y,x)-sorted input, `group_spans_by_row` partitions the spans into
rows (the concatenation of the output is a permutation of the input, so every
span is in exactly one row); membership in a row is governed by y-distance at
most the tolerance from the row's *first* span (and a new row starts exactly
when that bound is exceeded); each output row is sorted by x; and empty input
gives empty output. -/
theorem group_spans_by_row_spec (spans : List Span) (tol : ℚ) (htol : 0 ≤ tol)
    (hsorted : spans.Sorted spanLeYX) :
    (group_spans_by_row spans tol).flatten.Perm spans ∧
    (∀ r ∈ group_spans_by_row spans tol, r.Sorted spanLeX) ∧
    (group_spans_by_row spans tol = (groupRaw spans tol).map sortRowX ∧
      (∀ r ∈ groupRaw spans tol, ∀ hd, r.head? = some hd →
        ∀ s ∈ r, |s.y - hd.y| ≤ tol) ∧
      (groupRaw spans tol).Chain'
        (fun r1 r2 => ∀ h1 ∈ r1.head?, ∀ h2 ∈ r2.head?, tol < |h2.y - h1.y|)) ∧
    (spans = [] → group_spans_by_row spans tol = []) := by
  refine ⟨group_join_perm spans tol, group_rows_sortedX spans tol,
    ⟨group_eq_raw spans tol, groupRaw_rows_tol spans tol htol, groupRaw_chain spans tol⟩,
    ?_⟩
  intro h
  subst h
  rfl

/-- Witness for C8 at a concrete sorted span list. -/
theorem group_spans_by_row_spec_witness :
    ([⟨"a", 10, 0⟩, ⟨"b", 5, 2⟩, ⟨"c", 1, 20⟩] : List Span).Sorted spanLeYX ∧
    (group_spans_by_row [⟨"a", 10, 0⟩, ⟨"b", 5, 2⟩, ⟨"c", 1, 20⟩] 3).flatten.Perm
      [⟨"a", 10, 0⟩, ⟨"b", 5, 2⟩, ⟨"c", 1, 20⟩] := by
  have h : ([⟨"a", 10, 0⟩, ⟨"b", 5, 2⟩, ⟨"c", 1, 20⟩] : List Span).Sorted spanLeYX := by
    simp [List.sorted_cons, spanLeYX]
    norm_num
  exact ⟨h,
    (group_spans_by_row_spec [⟨"a", 10, 0⟩, ⟨"b", 5, 2⟩, ⟨"c", 1, 20⟩] 3 (by norm_num) h).1⟩

end BankStmt

namespace BankStmt

/-! ### Dates

Python `datetime` values are modelled as proleptic-Gregorian triples.
`datetime.strptime` / `strftime` are modelled for exactly the format strings
the source uses. -/

structure PDate where
  year : Nat
  month : Nat
  day : Nat
  deriving DecidableEq, Repr

def isLeapYear (y : Nat) : Bool := y % 4 = 0 && (y % 100 ≠ 0 || y % 400 = 0)

def daysInMonth (y : Nat) (m : Nat) : Nat :=
  if m = 2 then (if isLeapYear y then 29 else 28)
  else if m = 4 || m = 6 || m = 9 || m = 11 then 30
  else 31

/-- The dates `datetime(year, month, day)` accepts (MINYEAR = 1, MAXYEAR = 9999). -/
def validDate (d : PDate) : Prop :=
  1 ≤ d.year ∧ d.year ≤ 9999 ∧ 1 ≤ d.month ∧ d.month ≤ 12 ∧
    1 ≤ d.day ∧ d.day ≤ daysInMonth d.year d.month

instance (d : PDate) : Decidable (validDate d) := by unfold validDate; infer_instance

/-- `datetime` comparison (`result < start_date`). -/
def dateLtB (a b : PDate) : Bool :=
  a.year < b.year ||
    (a.year = b.year && (a.month < b.month || (a.month = b.month && a.day < b.day)))

def prevDay (d : PDate) : PDate :=
  if 1 < d.day then ⟨d.year, d.month, d.day - 1⟩
  else if 1 < d.month then ⟨d.year, d.month - 1, daysInMonth d.year (d.month - 1)⟩
  else ⟨d.year - 1, 12, 31⟩

/-- `date - timedelta(days=n)`. -/
def subDays : Nat → PDate → PDate
  | 0, d => d
  | n + 1, d => subDays n (prevDay d)

def digitChar (n : Nat) : Char := Char.ofNat (48 + n)

def digitVal (c : Char) : Nat := c.toNat - 48

/-- Two-digit zero-padded rendering (`%m`, `%d`). -/
def render2 (n : Nat) : List Char := [digitChar (n / 10 % 10), digitChar (n % 10)]

/-- Four-digit zero-padded rendering (`%Y`; all years produced by the code are
four-digit). -/
def render4 (n : Nat) : List Char :=
  [digitChar (n / 1000 % 10), digitChar (n / 100 % 10),
   digitChar (n / 10 % 10), digitChar (n % 10)]

/-- `strftime("%Y-%m-%d")`. -/
def renderISO (d : PDate) : String :=
  String.mk (render4 d.year ++ ('-' :: (render2 d.month ++ ('-' :: render2 d.day))))

/-! strptime building blocks.  CPython's `_strptime` compiles `%Y` to four
digits, `%m`/`%d` to one or two digits (two-digit alternatives first, single
digits `1-9` as fallback), `%B` to the full month names longest-first and
case-insensitively, and whitespace in the format to `\s+`.  In the three
formats used here the commit points never require cross-field backtracking
(each numeric field is followed by a non-digit literal or the end). -/

def read4 : List Char → Option (Nat × List Char)
  | a :: b :: c :: d :: rest =>
    if isDigitC a && isDigitC b && isDigitC c && isDigitC d then
      some (((digitVal a * 10 + digitVal b) * 10 + digitVal c) * 10 + digitVal d, rest)
    else none
  | _ => none

/-- One- or two-digit numeric field with value in `1..hi`, preferring the
two-digit parse (leading zero allowed, `00` rejected) like `%m`/`%d`. -/
def read2or1 (hi : Nat) : List Char → Option (Nat × List Char)
  | a :: b :: rest =>
    if isDigitC a && isDigitC b &&
        1 ≤ digitVal a * 10 + digitVal b && digitVal a * 10 + digitVal b ≤ hi then
      some (digitVal a * 10 + digitVal b, rest)
    else if isDigitC a && 1 ≤ digitVal a && digitVal a ≤ hi then
      some (digitVal a, b :: rest)
    else none
  | [a] =>
    if isDigitC a && 1 ≤ digitVal a && digitVal a ≤ hi then some (digitVal a, [])
    else none
  | [] => none

def readLit (c : Char) : List Char → Option (List Char)
  | a :: rest => if a = c then some rest else none
  | [] => none

/-- Format whitespace: at least one whitespace char, maximal munch (the
following fields never start with whitespace). -/
def readWs1 : List Char → Option (List Char)
  | a :: rest => if isPyWs a then some (rest.dropWhile isPyWs) else none
  | [] => none

/-- Full month names, longest first (CPython orders `%B` alternatives by
decreasing length), lowercase for the case-insensitive comparison. -/
def monthNames : List (String × Nat) :=
  [("september", 9), ("november", 11), ("december", 12), ("february", 2),
   ("january", 1), ("october", 10), ("august", 8), ("march", 3), ("april", 4),
   ("june", 6), ("july", 7), ("may", 5)]

/-- Case-insensitively drop the (lowercase) pattern from the head of `l`. -/
def dropCiPre : List Char → List Char → Option (List Char)
  | [], l => some l
  | _ :: _, [] => none
  | n :: ns, c :: cs => if n = c.toLower then dropCiPre ns cs else none

def readMonthNameGo : List (String × Nat) → List Char → Option (Nat × List Char)
  | [], _ => none
  | (nm, v) :: rest, l =>
    match dropCiPre nm.data l with
    | some l2 => some (v, l2)
    | none => readMonthNameGo rest l

def readMonthName (l : List Char) : Option (Nat × List Char) :=
  readMonthNameGo monthNames l

/-- `datetime.strptime(d, "%Y/%m/%d")`. -/
def strptimeSlash (s : String) : Option PDate := do
  let (y, r1) ← read4 s.data
  let r2 ← readLit '/' r1
  let (m, r3) ← read2or1 12 r2
  let r4 ← readLit '/' r3
  let (d, r5) ← read2or1 31 r4
  if r5 = [] && 1 ≤ y && d ≤ daysInMonth y m then some ⟨y, m, d⟩ else none

/-- `datetime.strptime(d, "%B %d, %Y")`. -/
def strptimeLong (s : String) : Option PDate := do
  let (m, r1) ← readMonthName s.data
  let r2 ← readWs1 r1
  let (d, r3) ← read2or1 31 r2
  let r4 ← readLit ',' r3
  let r5 ← readWs1 r4
  let (y, r6) ← read4 r5
  if r6 = [] && 1 ≤ y && d ≤ daysInMonth y m then some ⟨y, m, d⟩ else none

/-- `datetime.strptime(d, "%Y-%m-%d")`. -/
def strptimeISO (s : String) : Option PDate := do
  let (y, r1) ← read4 s.data
  let r2 ← readLit '-' r1
  let (m, r3) ← read2or1 12 r2
  let r4 ← readLit '-' r3
  let (d, r5) ← read2or1 31 r4
  if r5 = [] && 1 ≤ y && d ≤ daysInMonth y m then some ⟨y, m, d⟩ else none

/-- `iso8601_date` from src/rbc2/processors.py: try `%Y/%m/%d`, then
`%B %d, %Y`, then `%Y-%m-%d`, rendering the first success as `%Y-%m-%d`;
`none` models the final `raise ValueError(f"unsupported date format: {d}")`. -/
def iso8601_date (d : String) : Option String :=
  match strptimeSlash d with
  | some dt => some (renderISO dt)
  | none =>
    match strptimeLong d with
    | some dt => some (renderISO dt)
    | none =>
      match strptimeISO d with
      | some dt => some (renderISO dt)
      | none => none

end BankStmt

namespace BankStmt

theorem digitVal_digitChar {k : Nat} (hk : k < 10) : digitVal (digitChar k) = k := by
  interval_cases k <;> decide

theorem isDigitC_digitChar {k : Nat} (hk : k < 10) : isDigitC (digitChar k) = true := by
  interval_cases k <;> decide

theorem read4_render4 (y : Nat) (hy : y ≤ 9999) (rest : List Char) :
    read4 (render4 y ++ rest) = some (y, rest) := by
  have h1 : y / 1000 % 10 < 10 := Nat.mod_lt _ (by norm_num)
  have h2 : y / 100 % 10 < 10 := Nat.mod_lt _ (by norm_num)
  have h3 : y / 10 % 10 < 10 := Nat.mod_lt _ (by norm_num)
  have h4 : y % 10 < 10 := Nat.mod_lt _ (by norm_num)
  simp only [render4, List.cons_append, List.nil_append, read4,
    isDigitC_digitChar h1, isDigitC_digitChar h2, isDigitC_digitChar h3,
    isDigitC_digitChar h4, digitVal_digitChar h1, digitVal_digitChar h2,
    digitVal_digitChar h3, digitVal_digitChar h4, Bool.and_self, if_true]
  refine congrArg some (Prod.ext ?_ rfl)
  simp only
  omega

theorem read2or1_render2 (hi n : Nat) (h1 : 1 ≤ n) (h2 : n ≤ hi) (h99 : n ≤ 99)
    (rest : List Char) : read2or1 hi (render2 n ++ rest) = some (n, rest) := by
  have ha : n / 10 % 10 < 10 := Nat.mod_lt _ (by norm_num)
  have hb : n % 10 < 10 := Nat.mod_lt _ (by norm_num)
  have hv : digitVal (digitChar (n / 10 % 10)) * 10 + digitVal (digitChar (n % 10)) = n := by
    rw [digitVal_digitChar ha, digitVal_digitChar hb]
    omega
  simp only [render2, List.cons_append, List.nil_append, read2or1,
    isDigitC_digitChar ha, isDigitC_digitChar hb, hv]
  simp [h1, h2]

theorem readMonthName_digit {k : Nat} (hk : k < 10) (cs : List Char) :
    readMonthName (digitChar k :: cs) = none := by
  interval_cases k <;> rfl

theorem digit_bounds {c : Char} (h : isDigitC c = true) :
    48 ≤ c.toNat ∧ c.toNat ≤ 57 := by
  simp only [isDigitC, Bool.and_eq_true, decide_eq_true_eq] at h
  exact ⟨h.1, h.2⟩

theorem digitVal_le {c : Char} (h : isDigitC c = true) : digitVal c ≤ 9 := by
  have := digit_bounds h
  simp only [digitVal]
  omega

theorem read4_le (l : List Char) (y : Nat) (rest : List Char)
    (h : read4 l = some (y, rest)) : y ≤ 9999 := by
  match l with
  | a :: b :: c :: d :: r =>
    simp only [read4] at h
    split at h
    · rename_i hcond
      simp only [Bool.and_eq_true] at hcond
      have ha := digitVal_le hcond.1.1.1
      have hb := digitVal_le hcond.1.1.2
      have hc := digitVal_le hcond.1.2
      have hd := digitVal_le hcond.2
      have hy : ((digitVal a * 10 + digitVal b) * 10 + digitVal c) * 10 + digitVal d = y := by
        have := Option.some.inj h
        exact congrArg Prod.fst this
      omega
    · exact absurd h (by simp)
  | [] => simp [read4] at h
  | [a] => simp [read4] at h
  | [a, b] => simp [read4] at h
  | [a, b, c] => simp [read4] at h

theorem read2or1_bounds (hi : Nat) (l : List Char) (n : Nat) (rest : List Char)
    (h : read2or1 hi l = some (n, rest)) : 1 ≤ n ∧ n ≤ hi := by
  match l with
  | a :: b :: r =>
    simp only [read2or1] at h
    split at h
    · rename_i hcond
      simp only [Bool.and_eq_true, decide_eq_true_eq] at hcond
      have := Option.some.inj h
      have hn : digitVal a * 10 + digitVal b = n := congrArg Prod.fst this
      omega
    · split at h
      · rename_i hcond
        simp only [Bool.and_eq_true, decide_eq_true_eq] at hcond
        have := Option.some.inj h
        have hn : digitVal a = n := congrArg Prod.fst this
        omega
      · exact absurd h (by simp)
  | [a] =>
    simp only [read2or1] at h
    split at h
    · rename_i hcond
      simp only [Bool.and_eq_true, decide_eq_true_eq] at hcond
      have := Option.some.inj h
      have hn : digitVal a = n := congrArg Prod.fst this
      omega
    · exact absurd h (by simp)
  | [] => simp [read2or1] at h

theorem readMonthNameGo_range (nms : List (String × Nat)) (l : List Char)
    (m : Nat) (r : List Char) (h : readMonthNameGo nms l = some (m, r))
    (hall : ∀ p ∈ nms, 1 ≤ p.2 ∧ p.2 ≤ 12) : 1 ≤ m ∧ m ≤ 12 := by
  induction nms with
  | nil => simp [readMonthNameGo] at h
  | cons p rest ih =>
    simp only [readMonthNameGo] at h
    rcases hdp : dropCiPre p.1.data l with _ | l2 <;> rw [hdp] at h
    · exact ih h (fun q hq => hall q (List.mem_cons_of_mem p hq))
    · cases h
      exact hall p (List.mem_cons_self p rest)

theorem readMonthName_range (l : List Char) (m : Nat) (r : List Char)
    (h : readMonthName l = some (m, r)) : 1 ≤ m ∧ m ≤ 12 := by
  exact readMonthNameGo_range monthNames l m r h (by decide)

/-- A successful `%Y/%m/%d` parse yields a calendar-valid date. -/
theorem strptimeSlash_valid (s : String) (dt : PDate)
    (h : strptimeSlash s = some dt) : validDate dt := by
  rw [strptimeSlash] at h
  rcases h4 : read4 s.data with _ | ⟨⟨y, r1⟩⟩ <;> rw [h4] at h <;> simp at h
  rcases hl1 : readLit '/' r1 with _ | r2 <;> rw [hl1] at h <;> simp at h
  rcases hm : read2or1 12 r2 with _ | ⟨⟨m, r3⟩⟩ <;> rw [hm] at h <;> simp at h
  rcases hl2 : readLit '/' r3 with _ | r4 <;> rw [hl2] at h <;> simp at h
  rcases hd : read2or1 31 r4 with _ | ⟨⟨d, r5⟩⟩ <;> rw [hd] at h <;> simp at h
  obtain ⟨⟨⟨hr5, hy1⟩, hdm⟩, hdt⟩ := h
  have h1 := read4_le _ _ _ h4
  have h2 := read2or1_bounds _ _ _ _ hm
  subst hdt
  exact ⟨hy1, h1, h2.1, h2.2, (read2or1_bounds _ _ _ _ hd).1, hdm⟩

/-- A successful `%Y-%m-%d` parse yields a calendar-valid date. -/
theorem strptimeISO_valid (s : String) (dt : PDate)
    (h : strptimeISO s = some dt) : validDate dt := by
  rw [strptimeISO] at h
  rcases h4 : read4 s.data with _ | ⟨⟨y, r1⟩⟩ <;> rw [h4] at h <;> simp at h
  rcases hl1 : readLit '-' r1 with _ | r2 <;> rw [hl1] at h <;> simp at h
  rcases hm : read2or1 12 r2 with _ | ⟨⟨m, r3⟩⟩ <;> rw [hm] at h <;> simp at h
  rcases hl2 : readLit '-' r3 with _ | r4 <;> rw [hl2] at h <;> simp at h
  rcases hd : read2or1 31 r4 with _ | ⟨⟨d, r5⟩⟩ <;> rw [hd] at h <;> simp at h
  obtain ⟨⟨⟨hr5, hy1⟩, hdm⟩, hdt⟩ := h
  have h1 := read4_le _ _ _ h4
  have h2 := read2or1_bounds _ _ _ _ hm
  subst hdt
  exact ⟨hy1, h1, h2.1, h2.2, (read2or1_bounds _ _ _ _ hd).1, hdm⟩

/-- A successful `%B %d, %Y` parse yields a calendar-valid date. -/
theorem strptimeLong_valid (s : String) (dt : PDate)
    (h : strptimeLong s = some dt) : validDate dt := by
  rw [strptimeLong] at h
  rcases hmn : readMonthName s.data with _ | ⟨⟨m, r1⟩⟩ <;> rw [hmn] at h <;> simp at h
  rcases hw1 : readWs1 r1 with _ | r2 <;> rw [hw1] at h <;> simp at h
  rcases hd : read2or1 31 r2 with _ | ⟨⟨d, r3⟩⟩ <;> rw [hd] at h <;> simp at h
  rcases hl : readLit ',' r3 with _ | r4 <;> rw [hl] at h <;> simp at h
  rcases hw2 : readWs1 r4 with _ | r5 <;> rw [hw2] at h <;> simp at h
  rcases h4 : read4 r5 with _ | ⟨⟨y, r6⟩⟩ <;> rw [h4] at h <;> simp at h
  obtain ⟨⟨⟨hr6, hy1⟩, hdm⟩, hdt⟩ := h
  have h1 := read4_le _ _ _ h4
  have h2 := readMonthName_range _ _ _ hmn
  subst hdt
  exact ⟨hy1, h1, h2.1, h2.2, (read2or1_bounds _ _ _ _ hd).1, hdm⟩

theorem daysInMonth_le_31 (y m : Nat) : daysInMonth y m ≤ 31 := by
  unfold daysInMonth
  split
  · split <;> norm_num
  · split <;> norm_num

theorem isPyWs_digitChar {k : Nat} (hk : k < 10) : isPyWs (digitChar k) = false := by
  interval_cases k <;> decide

/-- `strftime`-style rendering `YYYY/MM/DD` (an input format of `iso8601_date`). -/
def renderSlash (d : PDate) : String :=
  String.mk (render4 d.year ++ ('/' :: (render2 d.month ++ ('/' :: render2 d.day))))

/-- Capitalized full month names as printed in statements. -/
def monthNameCap : Nat → String
  | 1 => "January" | 2 => "February" | 3 => "March" | 4 => "April"
  | 5 => "May" | 6 => "June" | 7 => "July" | 8 => "August"
  | 9 => "September" | 10 => "October" | 11 => "November" | 12 => "December"
  | _ => ""

/-- The long form `Month DD, YYYY`. -/
def renderLong (d : PDate) : String :=
  String.mk ((monthNameCap d.month).data
    ++ (' ' :: (render2 d.day ++ (',' :: (' ' :: render4 d.year)))))

/-- The `DD-MM-YYYY` form the specification claims is accepted. -/
def renderDDMMYYYY (d : PDate) : String :=
  String.mk (render2 d.day ++ ('-' :: (render2 d.month ++ ('-' :: render4 d.year))))

theorem readMonthName_cap (m : Nat) (h1 : 1 ≤ m) (h2 : m ≤ 12) (rest : List Char) :
    readMonthName ((monthNameCap m).data ++ rest) = some (m, rest) := by
  interval_cases m <;> rfl

theorem read4_digit3_none (a b : Char) (c : Char) (hc : isDigitC c = false)
    (d : Char) (r : List Char) : read4 (a :: b :: c :: d :: r) = none := by
  simp [read4, hc]

theorem read2or1_render2_nil (hi n : Nat) (h1 : 1 ≤ n) (h2 : n ≤ hi) (h99 : n ≤ 99) :
    read2or1 hi (render2 n) = some (n, []) := by
  have := read2or1_render2 hi n h1 h2 h99 []
  simpa using this

theorem strptimeISO_renderISO (dt : PDate) (h : validDate dt) :
    strptimeISO (renderISO dt) = some dt := by
  obtain ⟨h1, h2, h3, h4, h5, h6⟩ := h
  have hd31 := daysInMonth_le_31 dt.year dt.month
  have e1 : read4 (renderISO dt).data
      = some (dt.year, '-' :: (render2 dt.month ++ ('-' :: render2 dt.day))) :=
    read4_render4 dt.year h2 _
  have e3 : read2or1 12 (render2 dt.month ++ ('-' :: render2 dt.day))
      = some (dt.month, '-' :: render2 dt.day) :=
    read2or1_render2 12 dt.month h3 h4 (by omega) _
  have e5 : read2or1 31 (render2 dt.day) = some (dt.day, []) :=
    read2or1_render2_nil 31 dt.day h5 (by omega) (by omega)
  simp [strptimeISO, e1, e3, e5, readLit, h1, h6]

theorem strptimeSlash_renderISO (dt : PDate) (h : validDate dt) :
    strptimeSlash (renderISO dt) = none := by
  obtain ⟨h1, h2, h3, h4, h5, h6⟩ := h
  have e1 : read4 (renderISO dt).data
      = some (dt.year, '-' :: (render2 dt.month ++ ('-' :: render2 dt.day))) :=
    read4_render4 dt.year h2 _
  simp [strptimeSlash, e1, readLit]

theorem strptimeLong_renderISO (dt : PDate) :
    strptimeLong (renderISO dt) = none := by
  have e1 : readMonthName (renderISO dt).data = none := by
    rw [show (renderISO dt).data
        = digitChar (dt.year / 1000 % 10) :: (digitChar (dt.year / 100 % 10)
          :: digitChar (dt.year / 10 % 10) :: digitChar (dt.year % 10)
          :: '-' :: (render2 dt.month ++ ('-' :: render2 dt.day))) from rfl]
    exact readMonthName_digit (Nat.mod_lt _ (by norm_num)) _
  simp [strptimeLong, e1]

/-- `iso8601_date` maps the ISO rendering of a valid date to itself. -/
theorem iso8601_date_renderISO (dt : PDate) (h : validDate dt) :
    iso8601_date (renderISO dt) = some (renderISO dt) := by
  rw [iso8601_date, strptimeSlash_renderISO dt h, strptimeLong_renderISO dt,
    strptimeISO_renderISO dt h]

theorem strptimeSlash_renderSlash (dt : PDate) (h : validDate dt) :
    strptimeSlash (renderSlash dt) = some dt := by
  obtain ⟨h1, h2, h3, h4, h5, h6⟩ := h
  have e1 : read4 (renderSlash dt).data
      = some (dt.year, '/' :: (render2 dt.month ++ ('/' :: render2 dt.day))) :=
    read4_render4 dt.year h2 _
  have e3 : read2or1 12 (render2 dt.month ++ ('/' :: render2 dt.day))
      = some (dt.month, '/' :: render2 dt.day) :=
    read2or1_render2 12 dt.month h3 h4 (by omega) _
  have hd31 := daysInMonth_le_31 dt.year dt.month
  have e5 : read2or1 31 (render2 dt.day) = some (dt.day, []) :=
    read2or1_render2_nil 31 dt.day h5 (by omega) (by omega)
  simp [strptimeSlash, e1, e3, e5, readLit, h1, h6]

theorem strptimeLong_renderLong (dt : PDate) (h : validDate dt) :
    strptimeLong (renderLong dt) = some dt := by
  obtain ⟨h1, h2, h3, h4, h5, h6⟩ := h
  have hd31 := daysInMonth_le_31 dt.year dt.month
  have hsp : isPyWs ' ' = true := by decide
  have e1 : readMonthName (renderLong dt).data
      = some (dt.month, ' ' :: (render2 dt.day ++ (',' :: (' ' :: render4 dt.year)))) :=
    readMonthName_cap dt.month h3 h4 _
  have e2 : readWs1 (' ' :: (render2 dt.day ++ (',' :: (' ' :: render4 dt.year))))
      = some (render2 dt.day ++ (',' :: (' ' :: render4 dt.year))) := by
    simp [readWs1, render2, hsp, List.dropWhile_cons,
      isPyWs_digitChar (Nat.mod_lt _ (by norm_num))]
  have e3 : read2or1 31 (render2 dt.day ++ (',' :: (' ' :: render4 dt.year)))
      = some (dt.day, ',' :: (' ' :: render4 dt.year)) :=
    read2or1_render2 31 dt.day h5 (by omega) (by omega) _
  have e4 : readWs1 (' ' :: render4 dt.year) = some (render4 dt.year) := by
    simp [readWs1, render4, hsp, List.dropWhile_cons,
      isPyWs_digitChar (Nat.mod_lt _ (by norm_num))]
  have e5 : read4 (render4 dt.year) = some (dt.year, []) := by
    have := read4_render4 dt.year h2 []
    simpa using this
  rw [strptimeLong]
  rw [e1]
  simp only [Option.bind_eq_bind, Option.some_bind]
  rw [e2]
  simp only [Option.some_bind]
  rw [e3]
  simp only [Option.some_bind]
  rw [show readLit ',' (',' :: (' ' :: render4 dt.year)) = some (' ' :: render4 dt.year) from rfl]
  simp only [Option.some_bind]
  rw [e4]
  simp only [Option.some_bind]
  rw [e5]
  simp only [Option.some_bind]
  simp [h1, h6]

theorem strptimeSlash_renderLong (dt : PDate) (h3 : 1 ≤ dt.month) (h4 : dt.month ≤ 12) :
    strptimeSlash (renderLong dt) = none := by
  have e1 : read4 (renderLong dt).data = none := by
    rw [show (renderLong dt).data
        = (monthNameCap dt.month).data
          ++ (' ' :: (render2 dt.day ++ (',' :: (' ' :: render4 dt.year)))) from rfl]
    interval_cases dt.month <;> rfl
  simp [strptimeSlash, e1]

theorem iso8601_date_renderSlash (dt : PDate) (h : validDate dt) :
    iso8601_date (renderSlash dt) = some (renderISO dt) := by
  rw [iso8601_date, strptimeSlash_renderSlash dt h]

theorem iso8601_date_renderLong (dt : PDate) (h : validDate dt) :
    iso8601_date (renderLong dt) = some (renderISO dt) := by
  rw [iso8601_date, strptimeSlash_renderLong dt h.2.2.1 h.2.2.2.1,
    strptimeLong_renderLong dt h]

theorem strptime_renderDDMMYYYY_none (dt : PDate) :
    strptimeSlash (renderDDMMYYYY dt) = none ∧ strptimeLong (renderDDMMYYYY dt) = none ∧
      strptimeISO (renderDDMMYYYY dt) = none := by
  have h4 : read4 (renderDDMMYYYY dt).data = none := by
    rw [show (renderDDMMYYYY dt).data
        = digitChar (dt.day / 10 % 10) :: digitChar (dt.day % 10)
          :: '-' :: digitChar (dt.month / 10 % 10) :: (digitChar (dt.month % 10)
          :: ('-' :: render4 dt.year)) from rfl]
    exact read4_digit3_none _ _ '-' (by decide) _ _
  have hmn : readMonthName (renderDDMMYYYY dt).data = none := by
    rw [show (renderDDMMYYYY dt).data
        = digitChar (dt.day / 10 % 10) :: (digitChar (dt.day % 10)
          :: '-' :: (render2 dt.month ++ ('-' :: render4 dt.year))) from rfl]
    exact readMonthName_digit (Nat.mod_lt _ (by norm_num)) _
  exact ⟨by simp [strptimeSlash, h4], by simp [strptimeLong, hmn], by simp [strptimeISO, h4]⟩

/-- A successful `iso8601_date` is always the ISO rendering of a valid date. -/
theorem iso8601_date_sound (s r : String) (h : iso8601_date s = some r) :
    ∃ dt, validDate dt ∧ r = renderISO dt := by
  rw [iso8601_date] at h
  rcases h1 : strptimeSlash s with _ | dt <;> rw [h1] at h
  · rcases h2 : strptimeLong s with _ | dt <;> rw [h2] at h
    · rcases h3 : strptimeISO s with _ | dt <;> rw [h3] at h
      · exact absurd h (by simp)
      · exact ⟨dt, strptimeISO_valid s dt h3, (Option.some.inj h).symm⟩
    · exact ⟨dt, strptimeLong_valid s dt h2, (Option.some.inj h).symm⟩
  · exact ⟨dt, strptimeSlash_valid s dt h1, (Option.some.inj h).symm⟩

/-- C7 (amended): `iso8601_date` accepts exactly three date formats — slash
`YYYY/MM/DD`, long month-name `Month DD, YYYY`, and ISO `YYYY-MM-DD` —
returning the `YYYY-MM-DD` rendering for each; `DD-MM-YYYY` is *not* accepted,
and parsing fails loudly (modelled as `none`, for the `raise ValueError`) on
every other input: every successful result is the ISO rendering of a
calendar-valid date obtained from one of the three parsers. -/
theorem iso8601_date_spec :
    (∀ dt : PDate, validDate dt →
        iso8601_date (renderSlash dt) = some (renderISO dt) ∧
        iso8601_date (renderLong dt) = some (renderISO dt) ∧
        iso8601_date (renderISO dt) = some (renderISO dt) ∧
        iso8601_date (renderDDMMYYYY dt) = none) ∧
    (∀ s r, iso8601_date s = some r → ∃ dt, validDate dt ∧ r = renderISO dt) := by
  refine ⟨fun dt h => ⟨iso8601_date_renderSlash dt h, iso8601_date_renderLong dt h,
    iso8601_date_renderISO dt h, ?_⟩, iso8601_date_sound⟩
  obtain ⟨hn1, hn2, hn3⟩ := strptime_renderDDMMYYYY_none dt
  rw [iso8601_date, hn1, hn2, hn3]

/-- Witness for C7's amended theorem at March 14, 2023. -/
theorem iso8601_date_spec_witness :
    validDate ⟨2023, 3, 14⟩ ∧
      iso8601_date (renderSlash ⟨2023, 3, 14⟩) = some (renderISO ⟨2023, 3, 14⟩) ∧
      iso8601_date (renderDDMMYYYY ⟨2023, 3, 14⟩) = none :=
  ⟨by decide, (iso8601_date_spec.1 ⟨2023, 3, 14⟩ (by decide)).1,
    (iso8601_date_spec.1 ⟨2023, 3, 14⟩ (by decide)).2.2.2⟩

/-- C7 counterexample to the claim as stated: the `DD-MM-YYYY` form, which the
claim lists among the accepted formats, is rejected by `iso8601_date`. -/
theorem iso8601_date_ddmmyyyy_counterexample : iso8601_date "14-03-2023" = none := by rfl

/-! ### Record shapes exchanged between extractors and the Normalizer -/

/-- One row of the card-style extractor output
(`VisaStatementExtractor.extract` in src/bank_statement_processor/extractors.py):
columns Transaction Date, Posting Date, Description, Amount. -/
structure VisaTxn where
  transDate : String
  postDate : String
  desc : String
  amount : ℚ
  deriving DecidableEq, Repr

/-- One row of the account-style extractor output
(`ChequingSavingsStatementExtractor.extract`): columns Date, Description,
Withdrawals, Deposits, Balance, with `none` modelling NaN/missing. -/
structure AcctTxn where
  date : String
  desc : String
  wd : Option ℚ
  dep : Option ℚ
  bal : Option ℚ
  deriving DecidableEq, Repr

/-- One row of the canonical normalized table: Date, File, Description, Amount. -/
structure NormRow where
  date : String
  file : String
  desc : String
  amount : ℚ
  deriving DecidableEq, Repr

/-! ### The Normalizer (`normalize_csv` in src/rbc2/processors.py)

`normalize_csv` reads a CSV into a DataFrame and branches on which columns are
present.  It is modelled by one function per input shape, each specializing
the column-presence tests of the single Python function:
* visa tables have `Transaction Date` and `Amount` (and no `File`);
* account tables have `Date`, `Withdrawals`/`Deposits` and no `Amount`/`File`;
* canonical tables have `Date`, `File`, `Description`, `Amount`.
A `none` result models an uncaught exception (`iso8601_date` raising). -/

/-- `re.sub(r"\n+", " ", description)`, written with a previous-char-was-a-
newline flag so each maximal newline run emits one space. -/
def sanitizeGo (prevNl : Bool) : List Char → List Char
  | [] => []
  | c :: cs =>
    if c = '\n' then (if prevNl then sanitizeGo true cs else ' ' :: sanitizeGo true cs)
    else c :: sanitizeGo false cs

/-- `sanitize_description`: `re.sub(r"\n+", " ", description)`. -/
def sanitize_description (s : String) : String := String.mk (sanitizeGo false s.data)

/-- The two balance filters:
`df[~df["Description"].str.contains("opening balance", na=False, case=False)]`
and the same for `"Closing balance"`. -/
def isBalanceRow (desc : String) : Bool :=
  containsL "opening balance".data (toLowerL desc.data) ||
    containsL "closing balance".data (toLowerL desc.data)

/-- `df[col].apply(f)` where `f` may raise: first failure aborts. -/
def optionMapM (f : α → Option β) : List α → Option (List β)
  | [] => some []
  | a :: l =>
    match f a, optionMapM f l with
    | some b, some bs => some (b :: bs)
    | _, _ => none

theorem optionMapM_mem (f : α → Option β) (l : List α) (out : List β)
    (h : optionMapM f l = some out) : ∀ b ∈ out, ∃ a ∈ l, f a = some b := by
  induction l generalizing out with
  | nil =>
    simp only [optionMapM] at h
    cases h
    simp
  | cons a rest ih =>
    simp only [optionMapM] at h
    rcases hfa : f a with _ | b <;> rw [hfa] at h
    · exact absurd h (by simp)
    · rcases hrest : optionMapM f rest with _ | bs <;> rw [hrest] at h
      · exact absurd h (by simp)
      · cases h
        intro x hx
        rcases List.mem_cons.mp hx with rfl | hx
        · exact ⟨a, List.mem_cons_self a rest, hfa⟩
        · rcases ih bs hrest x hx with ⟨a2, ha2, hfa2⟩
          exact ⟨a2, List.mem_cons_of_mem a ha2, hfa2⟩

theorem optionMapM_id (f : α → Option α) (l : List α)
    (h : ∀ a ∈ l, f a = some a) : optionMapM f l = some l := by
  induction l with
  | nil => rfl
  | cons a rest ih =>
    simp only [optionMapM]
    rw [h a (List.mem_cons_self a rest), ih (fun x hx => h x (List.mem_cons_of_mem a hx))]

/-- `normalize_csv` on a card-style extractor table: `File` is absent and set
to the source file name, `Date` is `iso8601_date` of `Transaction Date`,
`Amount` is already present so the withdrawal/deposit branch is skipped, then
the two balance filters run and the four canonical columns are kept. -/
def normalize_csv_visa (srcFile : String) (rows : List VisaTxn) : Option (List NormRow) :=
  (optionMapM (fun r => (iso8601_date r.transDate).map
      (fun d => ({date := d, file := srcFile, desc := r.desc, amount := r.amount} : NormRow)))
    rows).map
    (fun out => out.filter (fun nr => !isBalanceRow nr.desc))

/-- `normalize_csv` on an account-style extractor table: `File` set to the
source file name, `Date` is `iso8601_date` of `Date`; `Amount` is absent, so
`Withdrawals`/`Deposits` are coerced with NaN as 0.0, the description is
sanitized and `Amount = Withdrawals * -1.0 + Deposits`; then the balance
filters and the projection. -/
def normalize_csv_account (srcFile : String) (rows : List AcctTxn) : Option (List NormRow) :=
  (optionMapM (fun r => (iso8601_date r.date).map
      (fun d => ({date := d, file := srcFile,
                  desc := sanitize_description r.desc,
                  amount := (r.wd.getD 0) * (-1) + r.dep.getD 0} : NormRow)))
    rows).map
    (fun out => out.filter (fun nr => !isBalanceRow nr.desc))

/-- `normalize_csv` on a table already in the canonical
`Date, File, Description, Amount` shape: `File` and `Amount` are present so
only the date coercion, the balance filters and the projection act. -/
def normalize_csv_norm (rows : List NormRow) : Option (List NormRow) :=
  (optionMapM (fun r => (iso8601_date r.date).map (fun d => {r with date := d})) rows).map
    (fun out => out.filter (fun nr => !isBalanceRow nr.desc))

/-- C2 (amended): for every account-style row surviving normalization, the
output Amount equals Deposits minus Withdrawals with a missing side treated
as 0; a row whose only populated side is a *positive* deposit yields
Amount > 0, and a row whose only populated side is a *positive* withdrawal
yields Amount < 0 (a populated amount of 0.00 yields Amount = 0). -/
theorem normalize_csv_account_spec (srcFile : String) (rows : List AcctTxn)
    (out : List NormRow) (h : normalize_csv_account srcFile rows = some out) :
    ∀ o ∈ out, ∃ r ∈ rows,
      o.amount = r.dep.getD 0 - r.wd.getD 0 ∧
      (∀ p, r.dep = some p → 0 < p → r.wd = none → 0 < o.amount) ∧
      (∀ p, r.wd = some p → 0 < p → r.dep = none → o.amount < 0) := by
  intro o ho
  rw [normalize_csv_account] at h
  rcases hmm : optionMapM (fun r => (iso8601_date r.date).map
      (fun d => ({date := d, file := srcFile,
                  desc := sanitize_description r.desc,
                  amount := (r.wd.getD 0) * (-1) + r.dep.getD 0} : NormRow))) rows
    with _ | out0 <;> rw [hmm] at h
  · exact absurd h (by simp)
  · simp only [Option.map_some'] at h
    cases h
    have ho0 := List.mem_of_mem_filter ho
    rcases optionMapM_mem _ _ _ hmm o ho0 with ⟨r, hr, hfr⟩
    refine ⟨r, hr, ?_, ?_, ?_⟩
    · rcases hiso : iso8601_date r.date with _ | d <;> rw [hiso] at hfr
      · exact absurd hfr (by simp)
      · simp only [Option.map_some'] at hfr
        cases hfr
        show r.wd.getD 0 * (-1) + r.dep.getD 0 = r.dep.getD 0 - r.wd.getD 0
        ring
    · intro p hdep hpos hwd
      rcases hiso : iso8601_date r.date with _ | d <;> rw [hiso] at hfr
      · exact absurd hfr (by simp)
      · simp only [Option.map_some'] at hfr
        cases hfr
        show 0 < r.wd.getD 0 * (-1) + r.dep.getD 0
        rw [hdep, hwd]
        simpa using hpos
    · intro p hwd hpos hdep
      rcases hiso : iso8601_date r.date with _ | d <;> rw [hiso] at hfr
      · exact absurd hfr (by simp)
      · simp only [Option.map_some'] at hfr
        cases hfr
        show r.wd.getD 0 * (-1) + r.dep.getD 0 < 0
        rw [hdep, hwd]
        simp only [Option.getD_some, Option.getD_none, add_zero]
        linarith

/-- Witness for C2's amended theorem: a deposit-only positive row keeps
Amount = deposit > 0. -/
theorem normalize_csv_account_spec_witness :
    normalize_csv_account "acct.pdf" [⟨"2023/03/14", "PAYROLL", none, some 100, none⟩]
        = some [⟨"2023-03-14", "acct.pdf", "PAYROLL", 100⟩] ∧
      (∃ r ∈ [(⟨"2023/03/14", "PAYROLL", none, some 100, none⟩ : AcctTxn)],
        (⟨"2023-03-14", "acct.pdf", "PAYROLL", 100⟩ : NormRow).amount
            = r.dep.getD 0 - r.wd.getD 0 ∧
        (∀ p, r.dep = some p → 0 < p → r.wd = none →
          0 < (⟨"2023-03-14", "acct.pdf", "PAYROLL", 100⟩ : NormRow).amount) ∧
        (∀ p, r.wd = some p → 0 < p → r.dep = none →
          (⟨"2023-03-14", "acct.pdf", "PAYROLL", 100⟩ : NormRow).amount < 0)) := by
  have hdate : iso8601_date "2023/03/14" = some "2023-03-14" := by decide
  have hbal : isBalanceRow "PAYROLL" = false := by decide
  have h : normalize_csv_account "acct.pdf"
      [⟨"2023/03/14", "PAYROLL", none, some 100, none⟩]
      = some [⟨"2023-03-14", "acct.pdf", "PAYROLL", 100⟩] := by
    have hdesc : sanitize_description "PAYROLL" = "PAYROLL" := by decide
    simp only [normalize_csv_account, optionMapM, hdate, Option.map_some', hdesc]
    norm_num [List.filter, hbal]
  exact ⟨h, normalize_csv_account_spec "acct.pdf" _ _ h
    ⟨"2023-03-14", "acct.pdf", "PAYROLL", 100⟩ (by decide)⟩

/-- C2 counterexample to the claim as stated: a source row populating *only a
deposit* — with the printed amount `0.00`, which the account extractor's
amount pattern `[\d,]+\.\d{2}` accepts — normalizes to Amount = 0, not
Amount > 0. -/
theorem normalize_csv_account_counterexample :
    normalize_csv_account "acct.pdf" [⟨"2023/03/14", "ZERO DEPOSIT", none, some 0, none⟩]
        = some [⟨"2023-03-14", "acct.pdf", "ZERO DEPOSIT", 0⟩] ∧
      (⟨"2023/03/14", "ZERO DEPOSIT", none, some 0, none⟩ : AcctTxn).wd = none ∧
      (⟨"2023/03/14", "ZERO DEPOSIT", none, some 0, none⟩ : AcctTxn).dep = some 0 ∧
      ¬ (0 < (⟨"2023-03-14", "acct.pdf", "ZERO DEPOSIT", 0⟩ : NormRow).amount) := by
  have hdate : iso8601_date "2023/03/14" = some "2023-03-14" := by decide
  have hbal : isBalanceRow "ZERO DEPOSIT" = false := by decide
  have hdesc : sanitize_description "ZERO DEPOSIT" = "ZERO DEPOSIT" := by decide
  refine ⟨?_, rfl, rfl, by norm_num⟩
  simp only [normalize_csv_account, optionMapM, hdate, Option.map_some', hdesc]
  norm_num [List.filter, hbal]

/-- Structure eta: a record updated with its own field is itself. -/
theorem normRow_update_date_self (r : NormRow) : ({r with date := r.date} : NormRow) = r := rfl

/-- C9: `normalize_csv` is idempotent on tables already in the canonical
`Date, File, Description, Amount` shape: applying it to its own output
returns the output unchanged (same columns, same values). -/
theorem normalize_csv_idempotent (T T' : List NormRow)
    (h : normalize_csv_norm T = some T') : normalize_csv_norm T' = some T' := by
  rw [normalize_csv_norm] at h
  rcases hmm : optionMapM (fun r => (iso8601_date r.date).map (fun d => {r with date := d})) T
    with _ | out0 <;> rw [hmm] at h
  · exact absurd h (by simp)
  · simp only [Option.map_some'] at h
    cases h
    have hdates : ∀ r' ∈ out0, iso8601_date r'.date = some r'.date := by
      intro r' hr'
      rcases optionMapM_mem _ _ _ hmm r' hr' with ⟨r, _, hfr⟩
      rcases hiso : iso8601_date r.date with _ | d <;> rw [hiso] at hfr
      · exact absurd hfr (by simp)
      · simp only [Option.map_some'] at hfr
        cases hfr
        rcases iso8601_date_sound _ _ hiso with ⟨dt, hvalid, rfl⟩
        simpa using iso8601_date_renderISO dt hvalid
    rw [normalize_csv_norm]
    rw [optionMapM_id _ _ (fun r' hr' => by
      rw [hdates r' (List.mem_of_mem_filter hr')]
      rfl)]
    simp only [Option.map_some', Option.some.injEq]
    rw [List.filter_filter]
    simp

/-- Witness for C9 at a concrete canonical table. -/
theorem normalize_csv_idempotent_witness :
    normalize_csv_norm [⟨"2023-03-14", "f.pdf", "COFFEE", 5⟩]
        = some [⟨"2023-03-14", "f.pdf", "COFFEE", 5⟩] ∧
      normalize_csv_norm [⟨"2023-03-14", "f.pdf", "COFFEE", 5⟩]
        = some [⟨"2023-03-14", "f.pdf", "COFFEE", 5⟩] := by
  have h : normalize_csv_norm [⟨"2023-03-14", "f.pdf", "COFFEE", 5⟩]
      = some [⟨"2023-03-14", "f.pdf", "COFFEE", 5⟩] := by decide
  exact ⟨h, normalize_csv_idempotent _ _ h⟩

/-! ### Card-style (Visa) extractor
(`VisaStatementExtractor` in src/bank_statement_processor/extractors.py)

The row-grammar regexes are anchored patterns whose consecutive atoms draw
from disjoint character classes, so greedy matching is forced and each is
modelled by a direct deterministic scanner.  (`$`'s allowance for one
trailing newline is irrelevant here: span texts are `strip()`ed and
single-line.)  `datetime(...)` range validation is elided: a pattern-matched
day outside the month would abort the whole extraction in Python and no claim
exercises that path. -/

def monthAbbrevs : List (String × Nat) :=
  [("JAN", 1), ("FEB", 2), ("MAR", 3), ("APR", 4), ("MAY", 5), ("JUN", 6),
   ("JUL", 7), ("AUG", 8), ("SEP", 9), ("OCT", 10), ("NOV", 11), ("DEC", 12)]

def matchMonthAbbrevGo : List (String × Nat) → List Char → Option (Nat × List Char)
  | [], _ => none
  | (nm, v) :: rest, l =>
    match dropCiPre (toLowerL nm.data) l with
    | some l2 => some (v, l2)
    | none => matchMonthAbbrevGo rest l

/-- The alternation `(JAN|FEB|...|DEC)` with `re.IGNORECASE`. -/
def matchMonthAbbrev (l : List Char) : Option (Nat × List Char) :=
  matchMonthAbbrevGo monthAbbrevs l

def digitsToNat (l : List Char) : Nat := l.foldl (fun a c => a * 10 + digitVal c) 0

/-- `TRANSACTION_DATE_REGEX = ^(JAN|...|DEC)[-\s]*(\d{1,2})$` (IGNORECASE),
used with `re.match`; returns the captured (month, day). -/
def transDateMatch (s : String) : Option (Nat × Nat) :=
  match matchMonthAbbrev s.data with
  | none => none
  | some (m, r1) =>
    let r2 := r1.dropWhile (fun c => c = '-' || isPyWs c)
    if r2 ≠ [] ∧ r2.length ≤ 2 ∧ r2.all isDigitC then some (m, digitsToNat r2) else none

/-- `[\d,]+\.\d{2}$`: a nonempty digit-or-comma run, a dot, two digits, end. -/
def amountTail (l : List Char) : Bool :=
  let run := l.takeWhile (fun c => isDigitC c || c = ',')
  run ≠ [] &&
    match l.drop run.length with
    | ['.', d1, d2] => isDigitC d1 && isDigitC d2
    | _ => false

/-- `AMOUNT_REGEX = ^[-]?\$?[\d,]+\.\d{2}$`. -/
def isAmountTok (s : String) : Bool :=
  let l := s.data
  let l := match l with | '-' :: r => r | _ => l
  let l := match l with | '$' :: r => r | _ => l
  amountTail l

/-- `NUMERIC_ONLY_REGEX = ^\d+$` applied to `next_text.strip()`. -/
def isNumericOnly (s : String) : Bool :=
  let l := stripWsL s.data
  l ≠ [] && l.all isDigitC

/-- `SECOND_DATE_REGEX = ^([A-Z]{3}\s*\d{1,2})(?:\s+(.*))?$` applied to the
uppercased second span; returns group 1's characters and whether group 2 is
nonempty (`if extra_text:`). -/
def secondDateMatch (l : List Char) : Option (List Char × Bool) :=
  match l with
  | a :: b :: c :: rest =>
    if isUpperC a && isUpperC b && isUpperC c then
      let ws := rest.takeWhile isPyWs
      let r2 := rest.drop ws.length
      let ds := r2.takeWhile isDigitC
      if ds = [] ∨ 2 < ds.length then none
      else
        let r3 := r2.drop ds.length
        match r3 with
        | [] => some (a :: b :: c :: (ws ++ ds), false)
        | w :: _ =>
          if isPyWs w then some (a :: b :: c :: (ws ++ ds), r3.dropWhile isPyWs ≠ [])
          else none
    else none
  | _ => none

/-- Case-insensitively drop a lowercase literal (`re.IGNORECASE` literals). -/
def dropCiWord (w : String) (l : List Char) : Option (List Char) := dropCiPre w.data l

/-- At least one whitespace char, maximal munch. -/
def dropWs1 (l : List Char) : Option (List Char) :=
  match l with
  | c :: rest => if isPyWs c then some (rest.dropWhile isPyWs) else none
  | [] => none

/-- `CURRENCY_INFO_REGEX =
Foreign\s+Currency\s*-\s*([A-Z]{3})\s+([\d,]+\.\d{2})\s+Exchange\s+rate\s*-\s*([\d.]+)`
(IGNORECASE) matched at one position; returns the three captured groups. -/
def matchCurrencyAt (l : List Char) : Option (List Char × List Char × List Char) := do
  let r1 ← dropCiWord "foreign" l
  let r2 ← dropWs1 r1
  let r3 ← dropCiWord "currency" r2
  let r4 := r3.dropWhile isPyWs
  let r5 ← match r4 with | '-' :: t => some t | _ => none
  let r6 := r5.dropWhile isPyWs
  match r6 with
  | c1 :: c2 :: c3 :: r7 =>
    if isAlphaC c1 && isAlphaC c2 && isAlphaC c3 then do
      let r8 ← dropWs1 r7
      let run := r8.takeWhile (fun c => isDigitC c || c = ',')
      if run = [] then none
      else
        match r8.drop run.length with
        | '.' :: d1 :: d2 :: r9 =>
          if isDigitC d1 && isDigitC d2 then do
            let r10 ← dropWs1 r9
            let r11 ← dropCiWord "exchange" r10
            let r12 ← dropWs1 r11
            let r13 ← dropCiWord "rate" r12
            let r14 := r13.dropWhile isPyWs
            let r15 ← match r14 with | '-' :: t => some t | _ => none
            let r16 := r15.dropWhile isPyWs
            let rate := r16.takeWhile (fun c => isDigitC c || c = '.')
            if rate = [] then none
            else some ([c1, c2, c3], run ++ '.' :: [d1, d2], rate)
          else none
        | _ => none
    else none
  | _ => none

/-- `CURRENCY_INFO_REGEX.search(row_text)`: leftmost match. -/
def currencySearchCI : List Char → Option (List Char × List Char × List Char)
  | [] => none
  | c :: cs =>
    match matchCurrencyAt (c :: cs) with
    | some r => some r
    | none => currencySearchCI cs

/-- `CARD_NUMBER_SECTION_REGEX = \d{4}\s+\d{2}\*{2}\s+\*{4}\s+\d{4}` matched
at one position. -/
def matchCardAt (l : List Char) : Bool :=
  match l with
  | a :: b :: c :: d :: rest =>
    (isDigitC a && isDigitC b && isDigitC c && isDigitC d) &&
      (match dropWs1 rest with
       | some (e :: f :: '*' :: '*' :: r2) =>
         (isDigitC e && isDigitC f) &&
           (match dropWs1 r2 with
            | some ('*' :: '*' :: '*' :: '*' :: r3) =>
              (match dropWs1 r3 with
               | some (g :: h :: i :: j :: _) =>
                 isDigitC g && isDigitC h && isDigitC i && isDigitC j
               | _ => false)
            | _ => false)
       | _ => false)
  | _ => false

/-- `CARD_NUMBER_SECTION_REGEX.search(row_text)`. -/
def cardNumberSearch : List Char → Bool
  | [] => false
  | c :: cs => matchCardAt (c :: cs) || cardNumberSearch cs

/-- `float(...)` on a cleaned decimal string (sign, integer digits, optional
fraction); all strings reaching it were validated by `AMOUNT_REGEX`. -/
def parseDec (l : List Char) : ℚ :=
  let sign : ℚ := match l with | '-' :: _ => -1 | _ => 1
  let l2 := match l with | '-' :: r => r | _ => l
  let ip := l2.takeWhile isDigitC
  let rest := l2.drop ip.length
  let fp := match rest with | '.' :: r => r.takeWhile isDigitC | _ => []
  sign * ((digitsToNat ip : ℚ) + (digitsToNat fp : ℚ) / (10 : ℚ) ^ fp.length)

def upperStr (s : String) : String := String.mk (toUpperL s.data)

def rowTextOf (row : List Span) : String := joinSpace (row.map (·.text))

/-- `VisaStatementExtractor._parse_date`: strip spaces, uppercase, match the
date pattern (else return the cleaned string); resolve the year from the
(already 30-day-shifted) statement start, rolling to the end year when the
start-year candidate falls before the period start. -/
def visaParseDate (dateStr : String) (startD endD : PDate) : String :=
  let cleaned := String.mk (toUpperL (dateStr.data.filter (· ≠ ' ')))
  match transDateMatch cleaned with
  | none => cleaned
  | some (m, d) =>
    let res : PDate := ⟨startD.year, m, d⟩
    if dateLtB res startD then renderISO ⟨endD.year, m, d⟩ else renderISO res

def rowHasStartDate (row : List Span) : Bool :=
  match row.head? with
  | some s0 => (transDateMatch s0.text).isSome
  | none => false

def rowHasEndAmount (row : List Span) : Bool :=
  match row.getLast? with
  | some sl => isAmountTok sl.text
  | none => false

/-- The inner continuation-merging while-loop of the Visa extractor: absorb
following rows into the head row (spliced before its trailing amount span),
skipping pure numeric reference rows, until a row with a date or amount, a
header row, or a vertical gap over 15.0 stops the merge. -/
def visaMergeCont (cur : List Span) : List (List Span) → List Span × List (List Span)
  | [] => (cur, [])
  | nxt :: rest =>
    let nextText := rowTextOf nxt
    if rowHasStartDate nxt || rowHasEndAmount nxt then (cur, nxt :: rest)
    else if containsStr (upperStr nextText) "TRANSACTION"
        || containsStr (upperStr nextText) "POSTING" then (cur, nxt :: rest)
    else if isNumericOnly nextText then visaMergeCont cur rest
    else
      match nxt.head?, cur.getLast? with
      | some n0, some cl =>
        if 15 < |n0.y - cl.y| then (cur, nxt :: rest)
        else visaMergeCont (cur.dropLast ++ nxt ++ [cl]) rest
      | _, _ => (cur, nxt :: rest)

theorem visaMergeCont_sublen (cur : List Span) (l : List (List Span)) :
    (visaMergeCont cur l).2.length ≤ l.length := by
  induction l generalizing cur with
  | nil => simp [visaMergeCont]
  | cons nxt rest ih =>
    rw [visaMergeCont]
    split
    · simp
    · split
      · simp
      · split
        · exact le_trans (ih cur) (by simp)
        · split
          · split
            · simp
            · exact le_trans (ih _) (by simp)
          · simp

/-- The outer merge loop: rows that look like complete transactions
(date first, amount last) absorb their continuation rows.  Written with a
fuel parameter (structural recursion); `visaMergeCont` never lengthens the
remaining row list (`visaMergeCont_sublen`), so fuel = list length always
suffices and the zero-fuel branch is unreachable. -/
def visaMergeRowsGo : Nat → List (List Span) → List (List Span)
  | _, [] => []
  | 0, l => l
  | fuel + 1, r :: rest =>
    if rowHasStartDate r && rowHasEndAmount r then
      (visaMergeCont r rest).1 :: visaMergeRowsGo fuel (visaMergeCont r rest).2
    else r :: visaMergeRowsGo fuel rest

def visaMergeRows (rows : List (List Span)) : List (List Span) :=
  visaMergeRowsGo rows.length rows

/-- `transactions["Description"][-1] += currency_info` on the emitted list. -/
def appendCurrency (txns : List VisaTxn) (info : String) : List VisaTxn :=
  match txns.getLast? with
  | none => txns
  | some t => txns.dropLast ++ [{t with desc := t.desc ++ info}]

/-- One iteration of the Visa extractor's row loop, in source order:
currency-annotation rows first, then the short-row, card-number-divider and
header-keyword skips, then the date/amount/second-date grammar checks, and
finally the transaction build (amount cleaned then negated). -/
def visaProcessRow (startD endD : PDate) (txns : List VisaTxn) (row : List Span) :
    List VisaTxn :=
  let rowText := rowTextOf row
  match currencySearchCI rowText.data with
  | some (code, amt, rate) =>
    appendCurrency txns
      (" (" ++ String.mk amt ++ " " ++ String.mk code ++ " @" ++ String.mk rate ++ ")")
  | none =>
    if row.length < 3 then txns
    else if cardNumberSearch rowText.data then txns
    else if containsStr (upperStr rowText) "TRANSACTION"
        || containsStr (upperStr rowText) "POSTING" then txns
    else if containsStr (upperStr rowText) "ACTIVITY DESCRIPTION" then txns
    else if containsStr (upperStr rowText) "SUBTOTAL"
        || containsStr (upperStr rowText) "MONTHLY ACTIVITY" then txns
    else
      match row with
      | s0 :: s1 :: _ :: _ =>
        match transDateMatch s0.text with
        | none => txns
        | some _ =>
          match row.getLast? with
          | none => txns
          | some slast =>
            if ¬ isAmountTok slast.text then txns
            else
              match secondDateMatch (toUpperL s1.text.data) with
              | none => txns
              | some (g1, extraTruthy) =>
                let descParts :=
                  if extraTruthy then
                    stripWs (String.mk (s1.text.data.drop g1.length))
                      :: ((row.drop 2).dropLast.map (·.text))
                  else (row.drop 2).dropLast.map (·.text)
                let description := joinSpace descParts
                let amtClean := slast.text.data.filter
                  (fun c => isDigitC c || c = '.' || c = '-')
                let amount := parseDec amtClean * (-1)
                let transDate := visaParseDate s0.text startD endD
                let postDate := visaParseDate (String.mk g1) startD endD
                txns ++ [⟨transDate, postDate, description, amount⟩]
      | _ => txns

/-- `VisaStatementExtractor.extract` for one page: shift the statement start
back 30 days, keep stripped nonempty spans left of x = 380, sort by (y, x),
group into rows, merge continuations, then run the row loop. -/
def visaExtractPage (startDate endDate : PDate) (spans : List Span) : List VisaTxn :=
  let startDate' := subDays 30 startDate
  let kept := spans.filterMap (fun s =>
    let t := stripWs s.text
    if t ≠ "" ∧ s.x < 380 then some ({s with text := t} : Span) else none)
  let rows := group_spans_by_row (sortSpansYX kept) 3
  (visaMergeRows rows).foldl (visaProcessRow startDate' endDate) []

/-- C5: a row matching the foreign-currency-annotation pattern never emits a
transaction; when at least one transaction exists, the ` (amount CCY @rate)`
payload is appended to the most recently emitted transaction's description,
and with no prior transaction the annotation is silently discarded. -/
theorem visa_currency_row_spec (startD endD : PDate) (txns : List VisaTxn)
    (row : List Span) (code amt rate : List Char)
    (h : currencySearchCI (rowTextOf row).data = some (code, amt, rate)) :
    (visaProcessRow startD endD txns row).length = txns.length ∧
    (txns = [] → visaProcessRow startD endD txns row = []) ∧
    (∀ ts t, txns = ts ++ [t] →
      visaProcessRow startD endD txns row = ts ++ [{t with desc := t.desc ++
        (" (" ++ String.mk amt ++ " " ++ String.mk code ++ " @" ++ String.mk rate ++ ")")}]) := by
  have hstep : visaProcessRow startD endD txns row = appendCurrency txns
      (" (" ++ String.mk amt ++ " " ++ String.mk code ++ " @" ++ String.mk rate ++ ")") := by
    simp only [visaProcessRow]
    rw [h]
  refine ⟨?_, ?_, ?_⟩
  · rw [hstep, appendCurrency]
    match htx : txns.getLast? with
    | none =>
      rcases List.getLast?_eq_none_iff.mp htx with rfl
      simp
    | some t =>
      rcases (List.getLast?_eq_some_iff).mp htx with ⟨ts, rfl⟩
      simp
  · intro h0
    subst h0
    rw [hstep]
    rfl
  · intro ts t h0
    subst h0
    rw [hstep, appendCurrency]
    rw [List.getLast?_concat, List.dropLast_concat]

/-- Witness for C5 at a concrete annotation row following one transaction. -/
theorem visa_currency_row_spec_witness :
    currencySearchCI (rowTextOf
        [⟨"Foreign Currency-USD 23.50", 50, 100⟩, ⟨"Exchange rate-1.360000", 160, 100⟩]).data
      = some ("USD".data, "23.50".data, "1.360000".data) ∧
    (∀ ts t, [(⟨"2023-03-14", "2023-03-15", "STARBUCKS #1234", -4.75⟩ : VisaTxn)] = ts ++ [t] →
      visaProcessRow ⟨2023, 1, 21⟩ ⟨2023, 3, 20⟩
          [⟨"2023-03-14", "2023-03-15", "STARBUCKS #1234", -4.75⟩]
          [⟨"Foreign Currency-USD 23.50", 50, 100⟩, ⟨"Exchange rate-1.360000", 160, 100⟩]
        = ts ++ [{t with desc := t.desc ++ (" (" ++ String.mk "23.50".data ++ " "
            ++ String.mk "USD".data ++ " @" ++ String.mk "1.360000".data ++ ")")}]) := by
  have h : currencySearchCI (rowTextOf
      [⟨"Foreign Currency-USD 23.50", 50, 100⟩, ⟨"Exchange rate-1.360000", 160, 100⟩]).data
      = some ("USD".data, "23.50".data, "1.360000".data) := by decide
  exact ⟨h, (visa_currency_row_spec ⟨2023, 1, 21⟩ ⟨2023, 3, 20⟩ _ _ _ _ _ h).2.2⟩

/-! ### C1: the concrete card-row scenario `MAR 14  MAR15  STARBUCKS #1234  4.75` -/

/-- The three spans of the scenario row: a transaction date span, a
posting-date-fused-with-description span, and the amount span. -/
def c1spans : List Span :=
  [⟨"MAR 14", 50, 100⟩, ⟨"MAR15  STARBUCKS #1234", 90, 100⟩, ⟨"4.75", 300, 100⟩]

theorem dateLtB_mar14 (Y : Nat) : dateLtB ⟨Y, 3, 14⟩ ⟨Y, 1, 21⟩ = false := by
  simp [dateLtB]

theorem dateLtB_mar15 (Y : Nat) : dateLtB ⟨Y, 3, 15⟩ ⟨Y, 1, 21⟩ = false := by
  simp [dateLtB]

theorem visaParseDate_mar14 (Y : Nat) :
    visaParseDate "MAR 14" ⟨Y, 1, 21⟩ ⟨Y, 3, 20⟩ = renderISO ⟨Y, 3, 14⟩ := by
  have h1 : transDateMatch (String.mk (toUpperL ("MAR 14".data.filter (· ≠ ' '))))
      = some (3, 14) := by decide
  simp only [visaParseDate, h1, dateLtB_mar14, Bool.false_eq_true, if_false]

theorem visaParseDate_mar15 (Y : Nat) :
    visaParseDate (String.mk "MAR15".data) ⟨Y, 1, 21⟩ ⟨Y, 3, 20⟩ = renderISO ⟨Y, 3, 15⟩ := by
  have h1 : transDateMatch (String.mk (toUpperL ((String.mk "MAR15".data).data.filter (· ≠ ' '))))
      = some (3, 15) := by decide
  simp only [visaParseDate, h1, dateLtB_mar15, Bool.false_eq_true, if_false]

set_option maxRecDepth 100000 in
theorem c1_row_eval (sd ed : PDate) :
    visaProcessRow sd ed [] c1spans
      = [⟨visaParseDate "MAR 14" sd ed, visaParseDate (String.mk "MAR15".data) sd ed,
          "STARBUCKS #1234", -(19/4)⟩] := by
  with_unfolding_all rfl

set_option maxRecDepth 100000 in
theorem c1_rows_eval :
    visaMergeRows (group_spans_by_row (sortSpansYX (c1spans.filterMap (fun s =>
        let t := stripWs s.text
        if t ≠ "" ∧ s.x < 380 then some ({s with text := t} : Span) else none))) 3)
      = [c1spans] := by
  with_unfolding_all rfl

theorem subDays_30_feb20 (Y : Nat) : subDays 30 (⟨Y, 2, 20⟩ : PDate) = ⟨Y, 1, 21⟩ := by
  norm_num [subDays, prevDay, daysInMonth]

set_option maxRecDepth 100000 in
set_option maxHeartbeats 1000000 in
theorem c1_page_eval (Y : Nat) :
    visaExtractPage ⟨Y, 2, 20⟩ ⟨Y, 3, 20⟩ c1spans
      = [⟨visaParseDate "MAR 14" ⟨Y, 1, 21⟩ ⟨Y, 3, 20⟩,
          visaParseDate (String.mk "MAR15".data) ⟨Y, 1, 21⟩ ⟨Y, 3, 20⟩,
          "STARBUCKS #1234", -(19/4)⟩] := by
  simp only [visaExtractPage]
  rw [c1_rows_eval]
  simp only [List.foldl]
  rw [subDays_30_feb20 Y]
  exact c1_row_eval ⟨Y, 1, 21⟩ ⟨Y, 3, 20⟩

/-- C1: the card-style row `MAR 14 | MAR15  STARBUCKS #1234 | 4.75` extracted
under a statement period Feb 20 – Mar 20 of a single year `Y` produces exactly
one transaction, both of whose dates resolve to year `Y` (transaction date
`Y-03-14`, posting date `Y-03-15`), and after the Normalizer the canonical
Amount is `-4.75`: the printed positive charge becomes negative (the extractor
negates, the Normalizer's card branch keeps the already-signed Amount). -/
theorem visa_scenario_mar14 (Y : Nat) (h1 : 1 ≤ Y) (h2 : Y ≤ 9999) :
    visaExtractPage ⟨Y, 2, 20⟩ ⟨Y, 3, 20⟩ c1spans
      = [⟨renderISO ⟨Y, 3, 14⟩, renderISO ⟨Y, 3, 15⟩, "STARBUCKS #1234", -(19/4)⟩] ∧
    normalize_csv_visa "stmt.pdf" (visaExtractPage ⟨Y, 2, 20⟩ ⟨Y, 3, 20⟩ c1spans)
      = some [⟨renderISO ⟨Y, 3, 14⟩, "stmt.pdf", "STARBUCKS #1234", -(19/4)⟩] := by
  have hpage : visaExtractPage ⟨Y, 2, 20⟩ ⟨Y, 3, 20⟩ c1spans
      = [⟨renderISO ⟨Y, 3, 14⟩, renderISO ⟨Y, 3, 15⟩, "STARBUCKS #1234", -(19/4)⟩] := by
    rw [c1_page_eval Y, visaParseDate_mar14 Y, visaParseDate_mar15 Y]
  refine ⟨hpage, ?_⟩
  rw [hpage]
  have hvalid : validDate ⟨Y, 3, 14⟩ := by
    refine ⟨h1, h2, by norm_num, by norm_num, by norm_num, ?_⟩
    show (14 : Nat) ≤ daysInMonth Y 3
    norm_num [daysInMonth]
  have hiso : iso8601_date (renderISO ⟨Y, 3, 14⟩) = some (renderISO ⟨Y, 3, 14⟩) :=
    iso8601_date_renderISO _ hvalid
  have hbal : isBalanceRow "STARBUCKS #1234" = false := by decide
  simp only [normalize_csv_visa, optionMapM, hiso, Option.map_some', List.filter, hbal,
    Bool.not_false]

/-- Witness for C1 at `Y = 2023`. -/
theorem visa_scenario_mar14_witness :
    visaExtractPage ⟨2023, 2, 20⟩ ⟨2023, 3, 20⟩ c1spans
      = [⟨renderISO ⟨2023, 3, 14⟩, renderISO ⟨2023, 3, 15⟩, "STARBUCKS #1234", -(19/4)⟩] ∧
    normalize_csv_visa "stmt.pdf" (visaExtractPage ⟨2023, 2, 20⟩ ⟨2023, 3, 20⟩ c1spans)
      = some [⟨renderISO ⟨2023, 3, 14⟩, "stmt.pdf", "STARBUCKS #1234", -(19/4)⟩] :=
  visa_scenario_mar14 2023 (by norm_num) (by norm_num)

/-! ### Account-style (Chequing/Savings) extractor
(`ChequingSavingsStatementExtractor` in src/bank_statement_processor/extractors.py) -/

def lowerStr (s : String) : String := String.mk (toLowerL s.data)

/-- `DATE_SIMPLE_REGEX = ^\d{1,2}\s*[A-Za-z]{3}$`. -/
def isDateSimple (s : String) : Bool :=
  let ds := s.data.takeWhile isDigitC
  (ds ≠ [] && ds.length ≤ 2) &&
    (let r := (s.data.drop ds.length).dropWhile isPyWs
     (r.length = 3 && r.all isAlphaC))

/-- `TRANSACTION_DATE_REGEX = (\d{1,2})\s*(JAN|...|DEC)` (IGNORECASE),
used with `re.match` (start-anchored, open end); captures (day, month). -/
def acctDateMatch (s : String) : Option (Nat × Nat) :=
  let ds := s.data.takeWhile isDigitC
  if ds = [] ∨ 2 < ds.length then none
  else
    match matchMonthAbbrev ((s.data.drop ds.length).dropWhile isPyWs) with
    | some (m, _) => some (digitsToNat ds, m)
    | none => none

/-- `ChequingSavingsStatementExtractor._parse_date`. -/
def acctParseDate (dateStr : String) (startD endD : PDate) : String :=
  match acctDateMatch dateStr with
  | none => dateStr
  | some (d, m) =>
    if dateLtB ⟨startD.year, m, d⟩ startD then renderISO ⟨endD.year, m, d⟩
    else renderISO ⟨startD.year, m, d⟩

/-- `AMOUNT_REGEX = ^[\d,]+\.\d{2}$` (account variant, unsigned). -/
def isAcctAmount (s : String) : Bool := amountTail s.data

/-- `DOC_REF_REGEX = ^RBP[A-Z]{2}\d` (margin document reference codes). -/
def isDocRef (s : String) : Bool :=
  match s.data with
  | 'R' :: 'B' :: 'P' :: a :: b :: c :: _ => isUpperC a && isUpperC b && isDigitC c
  | _ => false

/-- `SKIP_PHRASES` (header/footer detector). -/
def skipPhrases : List String :=
  ["account activity", "opening balance", "closing balance", "account fees",
   "total deposits", "total cheques", "date description", "cheques & debits",
   "deposits & credits", "withdrawals", "royal bank", "page ", "of 1", "of 2",
   "of 3", "of 4", "of 5", "of 6", "of 7", "of 8", "of 9", "of 10",
   "account statement", "account number", "continued"]

def isHeaderRowText (lowText : String) : Bool :=
  skipPhrases.any (fun p => containsStr lowText p)

/-- `MONTH_NAMES` (standalone month-name header rows). -/
def monthNamesLower : List String :=
  ["august", "september", "october", "november", "december", "january",
   "february", "march", "april", "may", "june", "july"]

def acctRowHasAmount (row : List Span) : Bool := row.any (fun s => isAcctAmount s.text)

def acctRowHasDate (row : List Span) : Bool := row.any (fun s => isDateSimple s.text)

/-- The account extractor's inner continuation-merge loop: absorb following
rows (whole-row concatenation) until one has a date or is over 15.0 away;
stop as soon as the combined row contains an amount. -/
def acctMergeCont (cur : List Span) : List (List Span) → List Span × List (List Span)
  | [] => (cur, [])
  | nxt :: rest =>
    if acctRowHasDate nxt then (cur, nxt :: rest)
    else
      match nxt.head?, cur.getLast? with
      | some n0, some cl =>
        if 15 < |n0.y - cl.y| then (cur, nxt :: rest)
        else
          if acctRowHasAmount (cur ++ nxt) then (cur ++ nxt, rest)
          else acctMergeCont (cur ++ nxt) rest
      | _, _ => (cur, nxt :: rest)

/-- The outer merge loop (fuel-based; `acctMergeCont` never lengthens the
remaining list, so fuel = length suffices): only rows with no amounts that
are not headers absorb continuation rows. -/
def acctMergeRowsGo : Nat → List (List Span) → List (List Span)
  | _, [] => []
  | 0, l => l
  | fuel + 1, r :: rest =>
    if ¬ acctRowHasAmount r ∧ ¬ isHeaderRowText (lowerStr (rowTextOf r)) then
      (acctMergeCont r rest).1 :: acctMergeRowsGo fuel (acctMergeCont r rest).2
    else r :: acctMergeRowsGo fuel rest

def acctMergeRows (rows : List (List Span)) : List (List Span) :=
  acctMergeRowsGo rows.length rows

/-- The X-band separation loop: spans equal to the date span are skipped,
amount-shaped spans land in the withdrawal (< 400), deposit (400–500) or
balance (> 500) column (later spans overwrite), everything else joins the
description.  Accumulator: (description parts, withdrawal, deposit, balance),
with `""` as the not-seen sentinel exactly as in the source. -/
def acctBands (dateSpan : Option Span) (row : List Span) :
    List String × String × String × String :=
  row.foldl (fun acc s =>
    if dateSpan = some s then acc
    else if isAcctAmount s.text then
      let amount := String.mk (s.text.data.filter (fun c => c ≠ ','))
      if s.x < 400 then (acc.1, amount, acc.2.2.1, acc.2.2.2)
      else if s.x < 500 then (acc.1, acc.2.1, amount, acc.2.2.2)
      else (acc.1, acc.2.1, acc.2.2.1, amount)
    else (acc.1 ++ [s.text], acc.2))
    ([], "", "", "")

/-- `float(w) if w else None`. -/
def optAmt (s : String) : Option ℚ := if s = "" then none else some (parseDec s.data)

/-- One iteration of the account extractor's row loop, threading the
carried-forward `last_date`: find a date span (updating `last_date`) or reuse
the carried date (skipping the row if none yet), skip header and standalone
month-name rows, separate amounts into X-bands, and emit unless the
description is empty or no amount at all was found. -/
def acctProcessRow (startD endD : PDate) (st : Option String × List AcctTxn)
    (row : List Span) : Option String × List AcctTxn :=
  match row with
  | [] => st
  | _ :: _ =>
    let dateSpan := row.find? (fun s => isDateSimple s.text)
    let pd : Option String :=
      match dateSpan with
      | some dsp => some (acctParseDate dsp.text startD endD)
      | none => st.1
    match pd with
    | none => st
    | some parsed =>
      let lowText := lowerStr (rowTextOf row)
      if isHeaderRowText lowText then (some parsed, st.2)
      else if monthNamesLower.contains (stripWs lowText) then (some parsed, st.2)
      else
        match acctBands dateSpan row with
        | (descParts, wd, dep, bal) =>
          if descParts = [] then (some parsed, st.2)
          else if wd = "" ∧ dep = "" ∧ bal = "" then (some parsed, st.2)
          else (some parsed,
            st.2 ++ [⟨parsed, joinSpace descParts, optAmt wd, optAmt dep, optAmt bal⟩])

/-- `ChequingSavingsStatementExtractor.extract` for one page: keep stripped,
nonempty, non-document-reference spans, sort by (y, x), group into rows,
merge continuations, then run the row loop carrying `last_date`. -/
def acctExtractPage (startD endD : PDate) (lastDate : Option String)
    (spans : List Span) : Option String × List AcctTxn :=
  let kept := spans.filterMap (fun s =>
    let t := stripWs s.text
    if t ≠ "" ∧ ¬ isDocRef t then some ({s with text := t} : Span) else none)
  let rows := acctMergeRows (group_spans_by_row (sortSpansYX kept) 3)
  rows.foldl (acctProcessRow startD endD) (lastDate, [])

theorem optAmt_isSome (s : String) (h : s ≠ "") : (optAmt s).isSome := by
  simp [optAmt, h]

theorem acctProcessRow_amounts (startD endD : PDate) (st : Option String × List AcctTxn)
    (row : List Span)
    (hst : ∀ t ∈ st.2, t.wd.isSome ∨ t.dep.isSome ∨ t.bal.isSome) :
    ∀ t ∈ (acctProcessRow startD endD st row).2,
      t.wd.isSome ∨ t.dep.isSome ∨ t.bal.isSome := by
  intro t ht
  rw [acctProcessRow.eq_def] at ht
  rcases row with _ | ⟨a, rest⟩
  · exact hst t ht
  · simp only at ht
    split at ht
    · exact hst t ht
    · split at ht
      · exact hst t ht
      · split at ht
        · exact hst t ht
        · split at ht
          · exact hst t ht
          · split at ht
            · exact hst t ht
            · rename_i hguard
              simp only at ht
              rcases List.mem_append.mp ht with h | h
              · exact hst t h
              · simp only [List.mem_singleton] at h
                subst h
                simp only [not_and_or] at hguard
                rcases hguard with h | h | h
                · exact Or.inl (optAmt_isSome _ h)
                · exact Or.inr (Or.inl (optAmt_isSome _ h))
                · exact Or.inr (Or.inr (optAmt_isSome _ h))

/-- C6 (amended): every transaction emitted by the account-style extractor
has at least one of its Withdrawals, Deposits and Balance fields populated
(a row with none of the three amount bands populated, or with no description
text, is dropped); withdrawal and deposit are *not* mutually exclusive, and a
balance-only row *is* emitted with neither withdrawal nor deposit. -/
theorem acct_extract_amounts (startD endD : PDate) (lastDate : Option String)
    (spans : List Span) :
    ∀ t ∈ (acctExtractPage startD endD lastDate spans).2,
      t.wd.isSome ∨ t.dep.isSome ∨ t.bal.isSome := by
  rw [acctExtractPage]
  generalize (acctMergeRows (group_spans_by_row (sortSpansYX (spans.filterMap (fun s =>
    let t := stripWs s.text
    if t ≠ "" ∧ ¬ isDocRef t then some ({s with text := t} : Span) else none))) 3)) = rows
  have main : ∀ (rows : List (List Span)) (st : Option String × List AcctTxn),
      (∀ t ∈ st.2, t.wd.isSome ∨ t.dep.isSome ∨ t.bal.isSome) →
      ∀ t ∈ (rows.foldl (acctProcessRow startD endD) st).2,
        t.wd.isSome ∨ t.dep.isSome ∨ t.bal.isSome := by
    intro rows
    induction rows with
    | nil => intro st hst; exact hst
    | cons r rest ih =>
      intro st hst
      exact ih (acctProcessRow startD endD st r)
        (acctProcessRow_amounts startD endD st r hst)
  exact main rows (lastDate, []) (by simp)

/-- The spans of the C6 counterexample page: a row with amounts in both the
withdrawal and deposit bands, then a balance-only row. -/
def c6spans : List Span :=
  [⟨"20 Mar", 40, 100⟩, ⟨"PAYROLL", 80, 100⟩, ⟨"50.00", 300, 100⟩, ⟨"70.00", 450, 100⟩,
   ⟨"21 Mar", 40, 200⟩, ⟨"BALANCE FORWARD", 80, 200⟩, ⟨"100.00", 520, 200⟩]

set_option maxRecDepth 100000 in
set_option maxHeartbeats 1000000 in
theorem c6_page_eval :
    acctExtractPage ⟨2023, 3, 1⟩ ⟨2023, 3, 31⟩ none c6spans
      = (some "2023-03-21",
         [⟨"2023-03-20", "PAYROLL", some 50, some 70, none⟩,
          ⟨"2023-03-21", "BALANCE FORWARD", none, none, some 100⟩]) := by
  with_unfolding_all rfl

/-- C6 counterexample to the claim as stated: on this concrete page the
account-style extractor emits one transaction with *both* withdrawal and
deposit populated, and one transaction with *neither* populated (balance
only) rather than dropping it. -/
theorem acct_extract_counterexample :
    acctExtractPage ⟨2023, 3, 1⟩ ⟨2023, 3, 31⟩ none c6spans
      = (some "2023-03-21",
         [⟨"2023-03-20", "PAYROLL", some 50, some 70, none⟩,
          ⟨"2023-03-21", "BALANCE FORWARD", none, none, some 100⟩]) ∧
    (⟨"2023-03-20", "PAYROLL", some 50, some 70, none⟩ : AcctTxn).wd.isSome ∧
    (⟨"2023-03-20", "PAYROLL", some 50, some 70, none⟩ : AcctTxn).dep.isSome ∧
    (⟨"2023-03-21", "BALANCE FORWARD", none, none, some 100⟩ : AcctTxn).wd = none ∧
    (⟨"2023-03-21", "BALANCE FORWARD", none, none, some 100⟩ : AcctTxn).dep = none :=
  ⟨c6_page_eval, rfl, rfl, rfl, rfl⟩

/-- Witness for C6's amended theorem at the counterexample page. -/
theorem acct_extract_amounts_witness :
    (⟨"2023-03-21", "BALANCE FORWARD", none, none, some 100⟩ : AcctTxn)
        ∈ (acctExtractPage ⟨2023, 3, 1⟩ ⟨2023, 3, 31⟩ none c6spans).2 ∧
      ((⟨"2023-03-21", "BALANCE FORWARD", none, none, some 100⟩ : AcctTxn).wd.isSome ∨
       (⟨"2023-03-21", "BALANCE FORWARD", none, none, some 100⟩ : AcctTxn).dep.isSome ∨
       (⟨"2023-03-21", "BALANCE FORWARD", none, none, some 100⟩ : AcctTxn).bal.isSome) := by
  have hm : (⟨"2023-03-21", "BALANCE FORWARD", none, none, some 100⟩ : AcctTxn)
      ∈ (acctExtractPage ⟨2023, 3, 1⟩ ⟨2023, 3, 31⟩ none c6spans).2 := by
    rw [c6_page_eval]
    simp
  exact ⟨hm, acct_extract_amounts ⟨2023, 3, 1⟩ ⟨2023, 3, 31⟩ none c6spans _ hm⟩

/-! ### The classifier's description normalization
(`Classifier.normalize_description`, identical in
src/bank_statement_processor/classifier.py and src/rbc2/classifier.py)

The two ID-stripping patterns need genuine backtracking (greedy quantifiers
constrained by later atoms), so they are modelled with a small
candidate-list engine: each combinator maps a state (previous character,
remaining input) to the list of possible successor states *in Python's
backtracking order* (greedy: longer consumptions first, left alternative
first); a substitution takes the first candidate.  Fuel bounds star
iterations; every starred subpattern consumes at least one character per
iteration, so fuel = input length + 1 is always sufficient. -/

/-- Matcher state: the previously consumed character (for `\b`) and the
remaining input. -/
abbrev RState := Option Char × List Char

/-- A single character class. -/
def clsS (p : Char → Bool) : RState → List RState
  | (_, []) => []
  | (_, c :: cs) => if p c then [(some c, cs)] else []

def seqS (f g : RState → List RState) (st : RState) : List RState :=
  (f st).flatMap g

def altS (f g : RState → List RState) (st : RState) : List RState :=
  f st ++ g st

/-- Greedy `*`: one more iteration first, then stop. -/
def starS (f : RState → List RState) : Nat → RState → List RState
  | 0, st => [st]
  | fuel + 1, st => (f st).flatMap (starS f fuel) ++ [st]

/-- Greedy `+` = one then `*`. -/
def plusS (f : RState → List RState) (fuel : Nat) : RState → List RState :=
  seqS f (starS f fuel)

def isWordOpt : Option Char → Bool
  | some c => isWordC c
  | none => false

/-- `\b`: a word/non-word boundary between the previous and next character. -/
def wordBS (st : RState) : List RState :=
  let next := match st.2 with | c :: _ => isWordC c | [] => false
  if isWordOpt st.1 ≠ next then [st] else []

/-- `$` without `re.MULTILINE`: end of input or just before one final
newline. -/
def eosS : RState → List RState
  | (p, []) => [(p, [])]
  | (p, ['\n']) => [(p, ['\n'])]
  | _ => []

/-- `(?:[A-Z]+[0-9]+)` (one repetition of the inner group). -/
def idGroup (fuel : Nat) : RState → List RState :=
  seqS (plusS (clsS isUpperC) fuel) (plusS (clsS isDigitC) fuel)

/-- `SIMPLE_ID_PATTERN = [-\*]\s*[0-9]*(?:[A-Z]+[0-9]+){2,}[A-Z0-9]+\b`
(case-sensitive); `x{2,}` is compiled as `x x x*`. -/
def simpleIdPat (fuel : Nat) : RState → List RState :=
  seqS (clsS (fun c => c = '-' || c = '*'))
    (seqS (starS (clsS isPyWs) fuel)
      (seqS (starS (clsS isDigitC) fuel)
        (seqS (idGroup fuel)
          (seqS (idGroup fuel)
            (seqS (starS (idGroup fuel) fuel)
              (seqS (plusS (clsS (fun c => isUpperC c || isDigitC c)) fuel) wordBS))))))

/-- `LONGER_ID_PATTERN = \b[0-9]*[A-Z]+[0-9]+[A-Z0-9]+$|\s*[0-9]+$`
(case-sensitive). -/
def longerIdPat (fuel : Nat) : RState → List RState :=
  altS
    (seqS wordBS
      (seqS (starS (clsS isDigitC) fuel)
        (seqS (plusS (clsS isUpperC) fuel)
          (seqS (plusS (clsS isDigitC) fuel)
            (seqS (plusS (clsS (fun c => isUpperC c || isDigitC c)) fuel) eosS)))))
    (seqS (starS (clsS isPyWs) fuel) (seqS (plusS (clsS isDigitC) fuel) eosS))

/-- `re.sub`: scan left to right; at each position take the first match in
backtracking order, emit the replacement, and continue after it (with the
matched text's last character as the new `\b` context).  Neither pattern can
match the empty string (each requires at least one character), so the
guard against empty matches and the skipped end-of-input position are
unreachable. -/
def pySubGo (matchAt : RState → Option RState) (repl : List Char) :
    Nat → Option Char → List Char → List Char
  | 0, _, l => l
  | _ + 1, _, [] => []
  | fuel + 1, prev, c :: cs =>
    match matchAt (prev, c :: cs) with
    | some (p2, rest2) =>
      if rest2.length < cs.length + 1 then repl ++ pySubGo matchAt repl fuel p2 rest2
      else c :: pySubGo matchAt repl fuel (some c) cs
    | none => c :: pySubGo matchAt repl fuel (some c) cs

def pySub (pat : Nat → RState → List RState) (repl : List Char) (s : List Char) :
    List Char :=
  pySubGo (fun st => (pat (s.length + 1) st).head?) repl (s.length + 1) none s

/-- `[^a-z]+` (IGNORECASE) substituted by a single space: each maximal run of
non-letters becomes one `' '` (a leading character-class `+` always takes the
maximal run, so the direct scanner is the exact regex behaviour); written
with a previous-char-was-non-letter flag for structural recursion. -/
def collapseGo (prevNonAlpha : Bool) : List Char → List Char
  | [] => []
  | c :: cs =>
    if isAlphaC c then c :: collapseGo false cs
    else if prevNonAlpha then collapseGo true cs
    else ' ' :: collapseGo true cs

/-- `Classifier.normalize_description`: strip compound ID tokens, strip
trailing ID/digit tokens, then lowercase, collapse non-letter runs to single
spaces and strip. -/
def normalize_description (description : String) : String :=
  let n1 := pySub simpleIdPat [] description.data
  let n2 := pySub longerIdPat [] n1
  String.mk (stripWsL (collapseGo false (toLowerL n2)))

/-! ### C10: `normalize_description` is idempotent

Strategy: characterize the output's normal form — every character is a
lowercase letter or a space, no two adjacent spaces, no leading/trailing
whitespace — and show each stage of the pipeline is the identity on strings
in normal form (neither ID pattern can match without `-`/`*`/digits/upper
case; lowering, collapsing and stripping fix their own output). -/

/-- A character produced by `str.lower` is never uppercase. -/
theorem toLower_eq_self (c : Char) (h : isUpperC c = false) : c.toLower = c := by
  rw [Char.toLower]
  simp only [isUpperC, Bool.and_eq_false_iff] at h
  have h2 : ¬(65 ≤ c.toNat ∧ c.toNat ≤ 90) := by
    rcases h with h | h
    · intro hc
      exact absurd (show ('A' : Char) ≤ c from hc.1) (by simpa using h)
    · intro hc
      exact absurd (show c ≤ ('Z' : Char) from hc.2) (by simpa using h)
  simp [h2]

theorem isUpperC_toLower (c : Char) : isUpperC c.toLower = false := by
  by_cases h : isUpperC c = true
  · rw [Char.toLower]
    simp only [isUpperC, Bool.and_eq_true] at h
    have h1 : 65 ≤ c.toNat := of_decide_eq_true h.1
    have h2 : c.toNat ≤ 90 := of_decide_eq_true h.2
    have hv : (c.toNat + 32).isValidChar := by left; omega
    rw [if_pos (by exact_mod_cast And.intro h1 h2)]
    have hn : (Char.ofNat (c.toNat + 32)).toNat = c.toNat + 32 := by
      unfold Char.ofNat
      rw [dif_pos hv]
      rfl
    simp only [isUpperC, Bool.and_eq_false_iff]
    right
    have hng : ¬ (Char.ofNat (c.toNat + 32) ≤ 'Z') := by
      show ¬ ((Char.ofNat (c.toNat + 32)).toNat ≤ 90)
      omega
    simpa using hng
  · rw [toLower_eq_self c (by simpa using h)]
    simpa using h

theorem lower_not_digit (c : Char) (h : isLowerC c = true) : isDigitC c = false := by
  simp only [isLowerC, Bool.and_eq_true] at h
  have h1 : 97 ≤ c.toNat := of_decide_eq_true h.1
  simp only [isDigitC, Bool.and_eq_false_iff]
  right
  have hng : ¬ (c ≤ '9') := by
    show ¬ (c.toNat ≤ 57)
    omega
  simpa using hng

theorem lower_not_upper (c : Char) (h : isLowerC c = true) : isUpperC c = false := by
  simp only [isLowerC, Bool.and_eq_true] at h
  have h1 : 97 ≤ c.toNat := of_decide_eq_true h.1
  simp only [isUpperC, Bool.and_eq_false_iff]
  right
  have hng : ¬ (c ≤ 'Z') := by
    show ¬ (c.toNat ≤ 90)
    omega
  simpa using hng

theorem toLowerL_id (l : List Char) (h : ∀ c ∈ l, isUpperC c = false) : toLowerL l = l := by
  induction l with
  | nil => rfl
  | cons a as ih =>
    show a.toLower :: toLowerL as = a :: as
    rw [toLower_eq_self a (h a (List.mem_cons_self a as)),
      ih (fun c hc => h c (List.mem_cons_of_mem a hc))]

/-! #### `str.strip` facts -/

theorem dropWhile_head_not (p : Char → Bool) :
    ∀ (l : List Char) (c : Char) (rest : List Char), l.dropWhile p = c :: rest → p c = false := by
  intro l
  induction l with
  | nil => intro c rest h; simp [List.dropWhile] at h
  | cons a as ih =>
    intro c rest h
    rw [List.dropWhile_cons] at h
    by_cases hp : p a = true
    · rw [if_pos hp] at h
      exact ih c rest h
    · rw [if_neg hp] at h
      cases h
      simpa using hp

/-- `strip` splits the post-`dropWhile` list into the stripped core and a
trailing whitespace run. -/
theorem stripWsL_append_aux (l : List Char) :
    List.dropWhile isPyWs l
      = stripWsL l ++ ((l.dropWhile isPyWs).reverse.takeWhile isPyWs).reverse := by
  conv_lhs =>
    rw [← List.reverse_reverse (List.dropWhile isPyWs l),
      ← List.takeWhile_append_dropWhile (p := isPyWs)
        (l := (List.dropWhile isPyWs l).reverse)]
  rw [List.reverse_append]
  rfl

/-- The stripped list sits inside the original list. -/
theorem stripWsL_mid (l : List Char) : stripWsL l <:+: l := by
  refine ⟨l.takeWhile isPyWs, ((l.dropWhile isPyWs).reverse.takeWhile isPyWs).reverse, ?_⟩
  rw [List.append_assoc, ← stripWsL_append_aux l, List.takeWhile_append_dropWhile]

theorem stripWsL_head_not (l : List Char) (c : Char) (rest : List Char)
    (h : stripWsL l = c :: rest) : isPyWs c = false := by
  have haux := stripWsL_append_aux l
  rw [h, List.cons_append] at haux
  exact dropWhile_head_not isPyWs l c _ haux

theorem stripWsL_idem (l : List Char) : stripWsL (stripWsL l) = stripWsL l := by
  have h1 : List.dropWhile isPyWs (stripWsL l) = stripWsL l := by
    cases hm : stripWsL l with
    | nil => simp
    | cons c rest =>
      rw [List.dropWhile_cons, if_neg]
      simp [stripWsL_head_not l c rest hm]
  have h2 : (stripWsL l).reverse = (l.dropWhile isPyWs).reverse.dropWhile isPyWs := by
    unfold stripWsL
    rw [List.reverse_reverse]
  show ((List.dropWhile isPyWs (stripWsL l)).reverse.dropWhile isPyWs).reverse = stripWsL l
  rw [h1, h2, List.dropWhile_idempotent]
  rfl

/-! #### Collapse facts -/

theorem mem_collapseGo : ∀ (flag : Bool) (l : List Char) (c : Char),
    c ∈ collapseGo flag l → (isAlphaC c = true ∧ c ∈ l) ∨ c = ' '
  | _, [], c, h => by simp [collapseGo] at h
  | flag, a :: as, c, h => by
    simp only [collapseGo] at h
    by_cases ha : isAlphaC a = true
    · rw [if_pos ha] at h
      rcases List.mem_cons.mp h with rfl | h'
      · exact Or.inl ⟨ha, List.mem_cons_self _ _⟩
      · rcases mem_collapseGo false as c h' with ⟨h1, h2⟩ | h1
        · exact Or.inl ⟨h1, List.mem_cons_of_mem _ h2⟩
        · exact Or.inr h1
    · rw [if_neg ha] at h
      by_cases hf : flag = true
      · rw [if_pos hf] at h
        rcases mem_collapseGo true as c h with ⟨h1, h2⟩ | h1
        · exact Or.inl ⟨h1, List.mem_cons_of_mem _ h2⟩
        · exact Or.inr h1
      · rw [if_neg hf] at h
        rcases List.mem_cons.mp h with rfl | h'
        · exact Or.inr rfl
        · rcases mem_collapseGo true as c h' with ⟨h1, h2⟩ | h1
          · exact Or.inl ⟨h1, List.mem_cons_of_mem _ h2⟩
          · exact Or.inr h1

/-- After a non-letter was just collapsed, the next emitted character is a
letter. -/
theorem collapseGo_true_head : ∀ (l : List Char) (c : Char),
    c ∈ (collapseGo true l).head? → isAlphaC c = true
  | [], c, h => by simp [collapseGo] at h
  | a :: as, c, h => by
    simp only [collapseGo] at h
    by_cases ha : isAlphaC a = true
    · rw [if_pos ha] at h
      simp only [List.head?_cons, Option.mem_def, Option.some.injEq] at h
      subst h
      exact ha
    · rw [if_neg ha, if_pos trivial] at h
      exact collapseGo_true_head as c h

/-- No two adjacent non-letters in collapsed output. -/
theorem collapseGo_chain : ∀ (flag : Bool) (l : List Char),
    List.Chain' (fun a b => isAlphaC a = true ∨ isAlphaC b = true) (collapseGo flag l)
  | _, [] => by simp [collapseGo]
  | flag, a :: as => by
    simp only [collapseGo]
    by_cases ha : isAlphaC a = true
    · rw [if_pos ha, List.chain'_cons']
      exact ⟨fun b _ => Or.inl ha, collapseGo_chain false as⟩
    · rw [if_neg ha]
      by_cases hf : flag = true
      · rw [if_pos hf]
        exact collapseGo_chain true as
      · rw [if_neg hf, List.chain'_cons']
        exact ⟨fun b hb => Or.inr (collapseGo_true_head as b hb), collapseGo_chain true as⟩

theorem collapseGo_id_aux : ∀ (l : List Char) (flag : Bool),
    (∀ c ∈ l, isAlphaC c = true ∨ c = ' ') →
    List.Chain' (fun a b => isAlphaC a = true ∨ isAlphaC b = true) l →
    (flag = true → ∀ c ∈ l.head?, isAlphaC c = true) →
    collapseGo flag l = l
  | [], _, _, _, _ => rfl
  | c :: cs, flag, h1, h2, h3 => by
    simp only [collapseGo]
    by_cases ha : isAlphaC c = true
    · rw [if_pos ha]
      rw [collapseGo_id_aux cs false (fun x hx => h1 x (List.mem_cons_of_mem c hx))
        h2.tail (by simp)]
    · have hsp : c = ' ' := (h1 c (List.mem_cons_self c cs)).resolve_left ha
      have hfl : flag = false := by
        cases flag with
        | false => rfl
        | true => exact absurd (h3 rfl c (by simp)) ha
      subst hfl
      rw [if_neg ha, if_neg (by simp)]
      have hhead : ∀ x ∈ cs.head?, isAlphaC x = true := by
        intro x hx
        have hrel := (List.chain'_cons'.mp h2).1 x hx
        exact hrel.resolve_left ha
      rw [collapseGo_id_aux cs true (fun x hx => h1 x (List.mem_cons_of_mem c hx))
        (List.chain'_cons'.mp h2).2 (fun _ => hhead)]
      rw [hsp]

/-! #### The ID patterns cannot match normalized text -/

theorem clsS_snd_suffix (p : Char → Bool) (st st' : RState) (h : st' ∈ clsS p st) :
    st'.2 <:+ st.2 := by
  obtain ⟨pr, l⟩ := st
  cases l with
  | nil => simp [clsS] at h
  | cons c cs =>
    simp only [clsS] at h
    by_cases hp : p c = true
    · rw [if_pos hp] at h
      simp only [List.mem_singleton] at h
      subst h
      exact List.suffix_cons c cs
    · rw [if_neg hp] at h
      simp at h

theorem clsS_cons_false (p : Char → Bool) (pr : Option Char) (c : Char) (cs : List Char)
    (h : p c = false) : clsS p (pr, c :: cs) = [] := by
  simp [clsS, h]

theorem starS_of_nil (f : RState → List RState) (st : RState) (h : f st = []) :
    ∀ fuel, starS f fuel st = [st]
  | 0 => rfl
  | fuel + 1 => by simp [starS, h]

theorem starS_snd_suffix (f : RState → List RState)
    (hf : ∀ st st', st' ∈ f st → st'.2 <:+ st.2) :
    ∀ (fuel : Nat) (st st' : RState), st' ∈ starS f fuel st → st'.2 <:+ st.2
  | 0, st, st', h => by
    simp only [starS, List.mem_singleton] at h
    subst h
    exact List.suffix_refl _
  | fuel + 1, st, st', h => by
    simp only [starS, List.mem_append, List.mem_flatMap, List.mem_singleton] at h
    rcases h with ⟨mid, hmid, hst'⟩ | rfl
    · exact (starS_snd_suffix f hf fuel mid st' hst').trans (hf st mid hmid)
    · exact List.suffix_refl _

theorem wordBS_mem (st st' : RState) (h : st' ∈ wordBS st) : st' = st := by
  simp only [wordBS] at h
  split at h
  · simpa using h
  · simp at h

/-- The compound-ID pattern needs a leading `-` or `*`. -/
theorem simpleIdPat_nomatch (fuel : Nat) (prev : Option Char) (c : Char) (cs : List Char)
    (h1 : c ≠ '-') (h2 : c ≠ '*') : simpleIdPat fuel (prev, c :: cs) = [] := by
  simp [simpleIdPat, seqS, clsS, h1, h2]

/-- The trailing-ID pattern needs a digit or an uppercase letter somewhere in
the remaining input. -/
theorem longerIdPat_nomatch (fuel : Nat) (prev : Option Char) (c : Char) (cs : List Char)
    (h : ∀ x ∈ c :: cs, isDigitC x = false ∧ isUpperC x = false) :
    longerIdPat fuel (prev, c :: cs) = [] := by
  have hd : isDigitC c = false := (h c (List.mem_cons_self c cs)).1
  have hu : isUpperC c = false := (h c (List.mem_cons_self c cs)).2
  simp only [longerIdPat, altS]
  rw [List.append_eq_nil]
  constructor
  · -- first alternative: `\b[0-9]*[A-Z]+[0-9]+[A-Z0-9]+$`
    simp only [seqS]
    rw [List.flatMap_eq_nil_iff]
    intro st' hst'
    rw [wordBS_mem _ _ hst']
    simp only [seqS]
    rw [starS_of_nil _ _ (clsS_cons_false isDigitC prev c cs hd) fuel]
    simp [plusS, seqS, clsS_cons_false isUpperC prev c cs hu]
  · -- second alternative: `\s*[0-9]+$`
    simp only [seqS]
    rw [List.flatMap_eq_nil_iff]
    intro st' hst'
    have hsuf : st'.2 <:+ c :: cs :=
      starS_snd_suffix (clsS isPyWs) (clsS_snd_suffix isPyWs) fuel (prev, c :: cs) st' hst'
    obtain ⟨pr', l'⟩ := st'
    cases l' with
    | nil => simp [plusS, seqS, clsS]
    | cons d ds =>
      have hdmem : d ∈ c :: cs := hsuf.subset (List.mem_cons_self d ds)
      simp [plusS, seqS, clsS_cons_false isDigitC pr' d ds (h d hdmem).1]

theorem pySubGo_cons_none (matchAt : RState → Option RState) (repl : List Char)
    (fuel : Nat) (prev : Option Char) (c : Char) (cs : List Char)
    (h : matchAt (prev, c :: cs) = none) :
    pySubGo matchAt repl (fuel + 1) prev (c :: cs)
      = c :: pySubGo matchAt repl fuel (some c) cs := by
  simp [pySubGo, h]

theorem pySubGo_id (matchAt : RState → Option RState) (repl : List Char) (P : Char → Bool)
    (hm : ∀ prev c cs, P c = true → (∀ x ∈ cs, P x = true) → matchAt (prev, c :: cs) = none) :
    ∀ (fuel : Nat) (prev : Option Char) (l : List Char),
      (∀ x ∈ l, P x = true) → pySubGo matchAt repl fuel prev l = l := by
  intro fuel
  induction fuel with
  | zero => intro prev l _; rfl
  | succ n ih =>
    intro prev l h
    cases l with
    | nil => rfl
    | cons c cs =>
      rw [pySubGo_cons_none matchAt repl n prev c cs
        (hm prev c cs (h c (List.mem_cons_self c cs))
          (fun x hx => h x (List.mem_cons_of_mem c hx)))]
      rw [ih (some c) cs (fun x hx => h x (List.mem_cons_of_mem c hx))]

theorem pySub_id (pat : Nat → RState → List RState) (P : Char → Bool)
    (hm : ∀ (L : Nat) (prev : Option Char) (c : Char) (cs : List Char),
      P c = true → (∀ x ∈ cs, P x = true) → pat L (prev, c :: cs) = [])
    (l : List Char) (h : ∀ x ∈ l, P x = true) : pySub pat [] l = l := by
  unfold pySub
  exact pySubGo_id _ [] P
    (fun prev c cs h1 h2 => by rw [hm (l.length + 1) prev c cs h1 h2]; rfl)
    (l.length + 1) none l h

/-- Every character of a normalized description is a lowercase letter or a
space. -/
theorem normalize_description_chars (s : String) :
    ∀ c ∈ (normalize_description s).data, (isLowerC c || c = ' ') = true := by
  intro c hc
  have hc2 : c ∈ collapseGo false
      (toLowerL (pySub longerIdPat [] (pySub simpleIdPat [] s.data))) :=
    (stripWsL_mid _).subset hc
  rcases mem_collapseGo _ _ c hc2 with ⟨ha, hm⟩ | rfl
  · rcases List.mem_map.mp hm with ⟨d, _, rfl⟩
    have hup := isUpperC_toLower d
    simp only [isAlphaC, Bool.or_eq_true] at ha
    rcases ha with h | h
    · simp [h]
    · rw [hup] at h
      cases h
  · decide

/-- C10: applying `normalize_description` to its own output returns it
unchanged. -/
theorem normalize_description_idempotent (s : String) :
    normalize_description (normalize_description s) = normalize_description s := by
  have hQ := normalize_description_chars s
  have hdu : ∀ c, (isLowerC c || c = ' ') = true →
      isDigitC c = false ∧ isUpperC c = false := by
    intro c h
    simp only [Bool.or_eq_true, decide_eq_true_eq] at h
    rcases h with h | rfl
    · exact ⟨lower_not_digit c h, lower_not_upper c h⟩
    · exact ⟨by decide, by decide⟩
  have hne : ∀ c, (isLowerC c || c = ' ') = true → c ≠ '-' ∧ c ≠ '*' := by
    intro c h
    constructor <;> rintro rfl <;> exact absurd h (by decide)
  have hA : pySub simpleIdPat [] (normalize_description s).data
      = (normalize_description s).data := by
    refine pySub_id simpleIdPat (fun c => isLowerC c || decide (c = ' ')) ?_ _ hQ
    intro L prev c cs h1 _
    exact simpleIdPat_nomatch L prev c cs (hne c h1).1 (hne c h1).2
  have hB : pySub longerIdPat [] (normalize_description s).data
      = (normalize_description s).data := by
    refine pySub_id longerIdPat (fun c => isLowerC c || decide (c = ' ')) ?_ _ hQ
    intro L prev c cs h1 h2
    refine longerIdPat_nomatch L prev c cs ?_
    intro x hx
    rcases List.mem_cons.mp hx with rfl | hx'
    · exact hdu x h1
    · exact hdu x (h2 x hx')
  have hup : ∀ c ∈ (normalize_description s).data, isUpperC c = false :=
    fun c hc => (hdu c (hQ c hc)).2
  have h1 : ∀ c ∈ (normalize_description s).data, isAlphaC c = true ∨ c = ' ' := by
    intro c hc
    have h := hQ c hc
    simp only [Bool.or_eq_true, decide_eq_true_eq] at h
    rcases h with h | h
    · exact Or.inl (by simp [isAlphaC, h])
    · exact Or.inr h
  have h2 : List.Chain' (fun a b => isAlphaC a = true ∨ isAlphaC b = true)
      (normalize_description s).data :=
    List.Chain'.infix (collapseGo_chain false _) (stripWsL_mid _)
  show String.mk (stripWsL (collapseGo false (toLowerL (pySub longerIdPat []
      (pySub simpleIdPat [] (normalize_description s).data))))) = normalize_description s
  rw [hA, hB, toLowerL_id _ hup, collapseGo_id_aux _ false h1 h2 (by simp)]
  show String.mk (stripWsL (stripWsL (collapseGo false (toLowerL (pySub longerIdPat []
      (pySub simpleIdPat [] s.data)))))) = normalize_description s
  rw [stripWsL_idem]
  rfl

/-! ### The classifier (src/bank_statement_processor/classifier.py and the
cluster variant src/rbc2/classifier.py)

Training is `set_category` over a list of rows; the dictionaries built by
repeated `setdefault(..., set()).add(category)` are modelled as views over
the inserted row list: the category set stored under a key is the set of
categories of all rows mapped to that key, and Python's insertion-ordered
dict iteration is the first-occurrence order of the keys.

Key strings are modelled structurally.  A bare key is a normalized
description (only lowercase letters and spaces, so it never contains `|`);
an amount-tagged key (`f"{amount:+g} || {norm_desc}"` resp.
`f"{norm_desc} | {int(abs(amount))}"`) always contains `|`, so the two
families never collide inside the shared dict and a tagged key is
faithfully a pair (rendered amount, normalized description).  The `%g`
float rendering maps two amounts to the same string exactly when they agree
after rounding to the given number of significant decimal digits
(round-half-even), modelled by `roundSig`.

`fuzz.WRatio` is an external library function (rapidfuzz); the similarity
scorer is therefore a parameter of the embedding (a function returning a
score in ℚ, as the library returns fractional floats in [0,100]). -/

def zpow10 (e : ℤ) : ℚ := (10 : ℚ) ^ e

/-- Decimal logarithm with structural fuel (`n` quotient-by-10 steps always
suffice). -/
def nlog10Go : Nat → Nat → Nat
  | 0, _ => 0
  | fuel + 1, n => if n < 10 then 0 else nlog10Go fuel (n / 10) + 1

def nlog10 (n : Nat) : Nat := nlog10Go n n

/-- Largest `e` with `10 ^ e ≤ |q|` (for `q ≠ 0`): decimal exponent of the
leading significant digit. -/
def qexp10 (q : ℚ) : ℤ :=
  let a := |q|
  let base : ℤ := (nlog10 a.num.natAbs : ℤ) - (nlog10 a.den : ℤ)
  if zpow10 (base + 1) ≤ a then base + 1
  else if zpow10 base ≤ a then base
  else base - 1

/-- Round half to even (the rounding used by CPython's float formatting). -/
def rne (q : ℚ) : ℤ :=
  let f := q.floor
  let r := q - (f : ℚ)
  if r < 1/2 then f
  else if (1 : ℚ)/2 < r then f + 1
  else if f % 2 = 0 then f else f + 1

/-- Round to `n` significant decimal digits: the value kernel of `%.ng`
formatting (`format(x, '.1g')`, the default 6 digits of `%g`). -/
def roundSig (n : ℕ) (q : ℚ) : ℚ :=
  if q = 0 then 0
  else
    let e := qexp10 q - ((n : ℤ) - 1)
    (rne (q / zpow10 e) : ℚ) * zpow10 e

/-- One training row: the arguments of one `set_category` call. -/
structure TrainRow where
  desc : String
  amount : ℚ
  cat : String
deriving DecidableEq, Repr

/-- First-occurrence deduplication (Python dict key insertion order). -/
def firstDedupAcc {α : Type} [DecidableEq α] (seen : List α) : List α → List α
  | [] => []
  | a :: as =>
    if a ∈ seen then firstDedupAcc seen as
    else a :: firstDedupAcc (a :: seen) as

def firstDedup {α : Type} [DecidableEq α] (l : List α) : List α := firstDedupAcc [] l

/-- `list(category_set)[0]` guarded by `len(category_set) == 1`. -/
def uniqueCat : List String → Option String
  | [c] => some c
  | _ => none

/-- The two `_category_training` keys a row is inserted under in
`Classifier.set_category` (bank_statement_processor): the bare normalized
description and the `f"{amount:+g} || {norm_desc}"` key. -/
def rowKeys (r : TrainRow) : List (Option ℚ × String) :=
  [(none, normalize_description r.desc),
   (some (roundSig 6 r.amount), normalize_description r.desc)]

/-- Category set stored in `_category_training` under a key, as a
first-occurrence list. -/
def catsAt (rows : List TrainRow) (k : Option ℚ × String) : List String :=
  firstDedup ((rows.filter (fun r => decide (k ∈ rowKeys r))).map TrainRow.cat)

/-- The `_category_amount_training` key of a row:
`f"{float(format(amount, '.1g')):+g} || {norm_desc}"`. -/
def amtKey (r : TrainRow) : ℚ × String :=
  (roundSig 1 r.amount, normalize_description r.desc)

def amtCatsAt (rows : List TrainRow) (k : ℚ × String) : List String :=
  firstDedup ((rows.filter (fun r => decide (amtKey r = k))).map TrainRow.cat)

/-- One iteration of the fuzzy loop of `Classifier.get_category`
(bank_statement_processor): skip multi-category entries, keep the candidate
whenever `score >= threshold`, raising the threshold to the score. -/
def fuzzyStep (wr : String × ℚ → ℚ × String → ℚ) (rows : List TrainRow)
    (q : String × ℚ) (acc : ℚ × Option String) (k : ℚ × String) : ℚ × Option String :=
  match uniqueCat (amtCatsAt rows k) with
  | some c => if acc.1 ≤ wr q k then (wr q k, some c) else acc
  | none => acc

/-- The fuzzy stage: iterate `_category_amount_training.items()` in key
insertion order with initial threshold 90.  The query string is
`f"{norm_desc} || {float(format(amount, '.1g')):+g}"` (description first),
modelled as the pair `(norm_desc, roundSig 1 amount)`. -/
def bsp_fuzzy (wr : String × ℚ → ℚ × String → ℚ) (rows : List TrainRow)
    (q : String × ℚ) : Option String :=
  ((firstDedup (rows.map amtKey)).foldl (fuzzyStep wr rows q) (90, none)).2

/-- `Classifier.get_category` (bank_statement_processor): amount-tagged exact
lookup, bare exact lookup, then the fuzzy stage with the `**` marker. -/
def bsp_get_category (wr : String × ℚ → ℚ × String → ℚ) (rows : List TrainRow)
    (description : String) (amount : ℚ) : Option String :=
  match uniqueCat (catsAt rows (some (roundSig 6 amount), normalize_description description)) with
  | some c => some c
  | none =>
    match uniqueCat (catsAt rows (none, normalize_description description)) with
    | some c => some c
    | none =>
      match bsp_fuzzy wr rows (normalize_description description, roundSig 1 amount) with
      | some c => some (c ++ "**")
      | none => none

/-! #### The rbc2 cluster variant -/

def isAlnumC (c : Char) : Bool := isAlphaC c || isDigitC c

/-- `[^a-z0-9]+` (IGNORECASE) collapsed to single spaces (see `collapseGo`). -/
def collapseGoAN (prevNon : Bool) : List Char → List Char
  | [] => []
  | c :: cs =>
    if isAlnumC c then c :: collapseGoAN false cs
    else if prevNon then collapseGoAN true cs
    else ' ' :: collapseGoAN true cs

/-- `NON_ALPHA_NUM_PATTERN.sub(" ", s.lower()).strip()`. -/
def nonAlphaNumNorm (s : String) : String :=
  String.mk (stripWsL (collapseGoAN false (toLowerL s.data)))

structure Cluster where
  category : String
  members : List String
  rep : String
deriving DecidableEq, Repr

/-- One iteration of the loops in `get_category_cluster` /
`set_category_cluster`: strictly improve on the best score seen so far
(initialized to `threshold - 1`). -/
def clusterStep (wr2 : String → String → ℚ) (nd : String)
    (acc : ℚ × Option Cluster) (cl : Cluster) : ℚ × Option Cluster :=
  if acc.1 < wr2 nd cl.rep then (wr2 nd cl.rep, some cl) else acc

/-- `Classifier.get_category_cluster` (rbc2): best cluster by score, starting
from `best_score = threshold - 1`; the final score is never re-checked
against the threshold. -/
def get_category_cluster (wr2 : String → String → ℚ) (clusters : List Cluster)
    (description : String) (threshold : ℚ) : Option Cluster :=
  (clusters.foldl (clusterStep wr2 (nonAlphaNumNorm description)) (threshold - 1, none)).2

def setAt {α : Type} : List α → ℕ → (α → α) → List α
  | [], _, _ => []
  | a :: as, 0, f => f a :: as
  | a :: as, n + 1, f => a :: setAt as n f

/-- `Classifier.set_category_cluster` (rbc2) with a non-null category: the
best same-category cluster (strict improvement over `threshold - 1`) absorbs
the normalized key as a member if its score reaches the threshold, otherwise
a new cluster is created. -/
def set_category_cluster (wr2 : String → String → ℚ) (clusters : List Cluster)
    (descKey category : String) (threshold : ℚ) : List Cluster :=
  let nd := nonAlphaNumNorm descKey
  let best := clusters.enum.foldl
    (fun (acc : ℚ × Option ℕ) icl =>
      if acc.1 < wr2 nd icl.2.rep then
        if icl.2.category = category then (wr2 nd icl.2.rep, some icl.1) else acc
      else acc)
    (threshold - 1, none)
  match best.2 with
  | some i =>
    if threshold ≤ best.1 then
      setAt clusters i (fun cl => ⟨cl.category, cl.members ++ [nd], cl.rep⟩)
    else clusters ++ [⟨category, [nd], nd⟩]
  | none => clusters ++ [⟨category, [nd], nd⟩]

/-- Classifier state of the rbc2 variant: the `_category_lookup` dict is the
view `rbc2CatsAt` over the inserted rows; clusters are explicit. -/
structure ClsState where
  rows : List TrainRow
  clusters : List Cluster

/-- The two `_category_lookup` keys of a row in rbc2 `set_category`: bare
normalized description and `f"{norm_desc} | {int(abs(amount))}"`. -/
def rbc2RowKeys (r : TrainRow) : List (Option ℕ × String) :=
  [(none, normalize_description r.desc),
   (some (|r.amount|).floor.toNat, normalize_description r.desc)]

def rbc2CatsAt (rows : List TrainRow) (k : Option ℕ × String) : List String :=
  firstDedup ((rows.filter (fun r => decide (k ∈ rbc2RowKeys r))).map TrainRow.cat)

/-- rbc2 `Classifier.set_category`: record the row for the lookup dict and
cluster `f"{description} {norm_amount}"` with threshold 90. -/
def rbc2_set_category (wr2 : String → String → ℚ) (st : ClsState)
    (description : String) (amount : ℚ) (category : String) : ClsState :=
  ⟨st.rows ++ [⟨description, amount, category⟩],
   set_category_cluster wr2 st.clusters
     (description ++ " " ++ Nat.repr (|amount|).floor.toNat) category 90⟩

/-- Insert a list of training rows into a fresh rbc2 classifier. -/
def rbc2Train (wr2 : String → String → ℚ) (rows : List TrainRow) : ClsState :=
  rows.foldl (fun st r => rbc2_set_category wr2 st r.desc r.amount r.cat) ⟨[], []⟩

/-- rbc2 `Classifier.get_category`: tagged exact lookup, bare exact lookup,
then the cluster stage with threshold 80 and the `**` marker (categories
inserted through `set_category` are never null). -/
def rbc2_get_category (wr2 : String → String → ℚ) (st : ClsState)
    (description : String) (amount : ℚ) : Option String :=
  match uniqueCat (rbc2CatsAt st.rows (some (|amount|).floor.toNat, normalize_description description)) with
  | some c => some c
  | none =>
    match uniqueCat (rbc2CatsAt st.rows (none, normalize_description description)) with
    | some c => some c
    | none =>
      match get_category_cluster wr2 st.clusters description 80 with
      | some cl => some (cl.category ++ "**")
      | none => none

/-- The amount-tagged `_category_training` key of a row
(bank_statement_processor). -/
def tagKey (r : TrainRow) : ℚ × String :=
  (roundSig 6 r.amount, normalize_description r.desc)

/-- The amount-tagged `_category_lookup` key of a row (rbc2). -/
def tagKey2 (r : TrainRow) : ℕ × String :=
  ((|r.amount|).floor.toNat, normalize_description r.desc)

/-! ### C3 / C4: classifier lookup and fuzzy-threshold properties -/

theorem firstDedupAcc_nil_of_seen {α : Type} [DecidableEq α] :
    ∀ (l seen : List α), (∀ x ∈ l, x ∈ seen) → firstDedupAcc seen l = []
  | [], _, _ => rfl
  | a :: as, seen, h => by
    rw [firstDedupAcc, if_pos (h a (List.mem_cons_self a as))]
    exact firstDedupAcc_nil_of_seen as seen (fun x hx => h x (List.mem_cons_of_mem a hx))

theorem mem_firstDedupAcc {α : Type} [DecidableEq α] :
    ∀ (l seen : List α) (x : α), x ∈ l → x ∉ seen → x ∈ firstDedupAcc seen l
  | [], _, x, hx, _ => by simp at hx
  | a :: as, seen, x, hx, hs => by
    rw [firstDedupAcc]
    by_cases ha : a ∈ seen
    · rw [if_pos ha]
      rcases List.mem_cons.mp hx with rfl | hx'
      · exact absurd ha hs
      · exact mem_firstDedupAcc as seen x hx' hs
    · rw [if_neg ha]
      rcases List.mem_cons.mp hx with rfl | hx'
      · exact List.mem_cons_self _ _
      · by_cases hxa : x = a
        · subst hxa
          exact List.mem_cons_self _ _
        · exact List.mem_cons_of_mem _
            (mem_firstDedupAcc as (a :: seen) x hx'
              (fun hc => (List.mem_cons.mp hc).elim hxa hs))

theorem mem_firstDedup {α : Type} [DecidableEq α] (l : List α) (x : α) (h : x ∈ l) :
    x ∈ firstDedup l :=
  mem_firstDedupAcc l [] x h (by simp)

theorem firstDedup_const :
    ∀ (l : List String) (c : String), l ≠ [] → (∀ x ∈ l, x = c) → firstDedup l = [c]
  | [], _, h0, _ => absurd rfl h0
  | a :: as, c, _, h => by
    have ha : a = c := h a (List.mem_cons_self a as)
    subst ha
    show firstDedupAcc [] (a :: as) = [a]
    rw [firstDedupAcc, if_neg (by simp)]
    rw [firstDedupAcc_nil_of_seen as [a]
      (fun x hx => by rw [h x (List.mem_cons_of_mem a hx)]; simp)]

theorem uniqueCat_of_const {l : List String} {c : String} (h0 : l ≠ [])
    (h : ∀ x ∈ l, x = c) : uniqueCat (firstDedup l) = some c := by
  rw [firstDedup_const l c h0 h]
  rfl

theorem uniqueCat_of_two {l : List String} {a b : String} (ha : a ∈ l) (hb : b ∈ l)
    (hne : a ≠ b) : uniqueCat (firstDedup l) = none := by
  cases hfd : firstDedup l with
  | nil => rfl
  | cons x xs =>
    cases xs with
    | nil =>
      have ha' := mem_firstDedup l a ha
      have hb' := mem_firstDedup l b hb
      rw [hfd, List.mem_singleton] at ha' hb'
      exact absurd (ha'.trans hb'.symm) hne
    | cons y ys => rfl

theorem mem_rowKeys_tagged (r' : TrainRow) (t : ℚ) (d : String) :
    ((some t, d) ∈ rowKeys r') ↔ tagKey r' = (t, d) := by
  simp [rowKeys, tagKey, Prod.ext_iff, eq_comm]

theorem mem_rowKeys_bare (r' : TrainRow) (d : String) :
    (((none : Option ℚ), d) ∈ rowKeys r') ↔ normalize_description r'.desc = d := by
  simp [rowKeys, eq_comm]

theorem mem_rbc2RowKeys_tagged (r' : TrainRow) (n : ℕ) (d : String) :
    ((some n, d) ∈ rbc2RowKeys r') ↔ tagKey2 r' = (n, d) := by
  simp [rbc2RowKeys, tagKey2, Prod.ext_iff, eq_comm]

theorem mem_rbc2RowKeys_bare (r' : TrainRow) (d : String) :
    (((none : Option ℕ), d) ∈ rbc2RowKeys r') ↔ normalize_description r'.desc = d := by
  simp [rbc2RowKeys, eq_comm]

theorem rbc2Train_rows_aux (wr2 : String → String → ℚ) :
    ∀ (rows : List TrainRow) (st : ClsState),
      (rows.foldl (fun st r => rbc2_set_category wr2 st r.desc r.amount r.cat) st).rows
        = st.rows ++ rows
  | [], st => by simp
  | a :: as, st => by
    rw [List.foldl_cons, rbc2Train_rows_aux wr2 as _]
    simp [rbc2_set_category]

theorem rbc2Train_rows (wr2 : String → String → ℚ) (rows : List TrainRow) :
    (rbc2Train wr2 rows).rows = rows := by
  have h := rbc2Train_rows_aux wr2 rows ⟨[], []⟩
  simpa [rbc2Train] using h

theorem catsAt_tagged_unique {rows : List TrainRow} {r : TrainRow} (hr : r ∈ rows)
    (hcons : ∀ r' ∈ rows, tagKey r' = tagKey r → r'.cat = r.cat) :
    uniqueCat (catsAt rows (some (roundSig 6 r.amount), normalize_description r.desc))
      = some r.cat := by
  apply uniqueCat_of_const
  · have hmem : r ∈ rows.filter
        (fun r' => decide ((some (roundSig 6 r.amount), normalize_description r.desc)
          ∈ rowKeys r')) :=
      List.mem_filter.mpr ⟨hr, decide_eq_true ((mem_rowKeys_tagged r _ _).mpr rfl)⟩
    intro hnil
    rw [List.map_eq_nil_iff] at hnil
    rw [hnil] at hmem
    simp at hmem
  · intro x hx
    rcases List.mem_map.mp hx with ⟨r', hr', rfl⟩
    have hf := List.mem_filter.mp hr'
    exact hcons r' hf.1 ((mem_rowKeys_tagged r' _ _).mp (of_decide_eq_true hf.2))

theorem catsAt_conflict {rows : List TrainRow} {r r1 r2 : TrainRow}
    (hr1 : r1 ∈ rows) (hr2 : r2 ∈ rows) (hk1 : tagKey r1 = tagKey r)
    (hk2 : tagKey r2 = tagKey r) (hne : r1.cat ≠ r2.cat) :
    uniqueCat (catsAt rows (some (roundSig 6 r.amount), normalize_description r.desc))
        = none ∧
      uniqueCat (catsAt rows ((none : Option ℚ), normalize_description r.desc)) = none := by
  have hd1 : normalize_description r1.desc = normalize_description r.desc :=
    congrArg Prod.snd hk1
  have hd2 : normalize_description r2.desc = normalize_description r.desc :=
    congrArg Prod.snd hk2
  constructor
  · apply uniqueCat_of_two (a := r1.cat) (b := r2.cat) _ _ hne
    · exact List.mem_map.mpr ⟨r1, List.mem_filter.mpr
        ⟨hr1, decide_eq_true ((mem_rowKeys_tagged r1 _ _).mpr hk1)⟩, rfl⟩
    · exact List.mem_map.mpr ⟨r2, List.mem_filter.mpr
        ⟨hr2, decide_eq_true ((mem_rowKeys_tagged r2 _ _).mpr hk2)⟩, rfl⟩
  · apply uniqueCat_of_two (a := r1.cat) (b := r2.cat) _ _ hne
    · exact List.mem_map.mpr ⟨r1, List.mem_filter.mpr
        ⟨hr1, decide_eq_true ((mem_rowKeys_bare r1 _).mpr hd1)⟩, rfl⟩
    · exact List.mem_map.mpr ⟨r2, List.mem_filter.mpr
        ⟨hr2, decide_eq_true ((mem_rowKeys_bare r2 _).mpr hd2)⟩, rfl⟩

theorem rbc2CatsAt_tagged_unique {rows : List TrainRow} {r : TrainRow} (hr : r ∈ rows)
    (hcons : ∀ r' ∈ rows, tagKey2 r' = tagKey2 r → r'.cat = r.cat) :
    uniqueCat (rbc2CatsAt rows (some (|r.amount|).floor.toNat, normalize_description r.desc))
      = some r.cat := by
  apply uniqueCat_of_const
  · have hmem : r ∈ rows.filter
        (fun r' => decide ((some (|r.amount|).floor.toNat, normalize_description r.desc)
          ∈ rbc2RowKeys r')) :=
      List.mem_filter.mpr ⟨hr, decide_eq_true ((mem_rbc2RowKeys_tagged r _ _).mpr rfl)⟩
    intro hnil
    rw [List.map_eq_nil_iff] at hnil
    rw [hnil] at hmem
    simp at hmem
  · intro x hx
    rcases List.mem_map.mp hx with ⟨r', hr', rfl⟩
    have hf := List.mem_filter.mp hr'
    exact hcons r' hf.1 ((mem_rbc2RowKeys_tagged r' _ _).mp (of_decide_eq_true hf.2))

theorem rbc2CatsAt_conflict {rows : List TrainRow} {r r1 r2 : TrainRow}
    (hr1 : r1 ∈ rows) (hr2 : r2 ∈ rows) (hk1 : tagKey2 r1 = tagKey2 r)
    (hk2 : tagKey2 r2 = tagKey2 r) (hne : r1.cat ≠ r2.cat) :
    uniqueCat (rbc2CatsAt rows
        (some (|r.amount|).floor.toNat, normalize_description r.desc)) = none ∧
      uniqueCat (rbc2CatsAt rows ((none : Option ℕ), normalize_description r.desc)) = none := by
  have hd1 : normalize_description r1.desc = normalize_description r.desc :=
    congrArg Prod.snd hk1
  have hd2 : normalize_description r2.desc = normalize_description r.desc :=
    congrArg Prod.snd hk2
  constructor
  · apply uniqueCat_of_two (a := r1.cat) (b := r2.cat) _ _ hne
    · exact List.mem_map.mpr ⟨r1, List.mem_filter.mpr
        ⟨hr1, decide_eq_true ((mem_rbc2RowKeys_tagged r1 _ _).mpr hk1)⟩, rfl⟩
    · exact List.mem_map.mpr ⟨r2, List.mem_filter.mpr
        ⟨hr2, decide_eq_true ((mem_rbc2RowKeys_tagged r2 _ _).mpr hk2)⟩, rfl⟩
  · apply uniqueCat_of_two (a := r1.cat) (b := r2.cat) _ _ hne
    · exact List.mem_map.mpr ⟨r1, List.mem_filter.mpr
        ⟨hr1, decide_eq_true ((mem_rbc2RowKeys_bare r1 _).mpr hd1)⟩, rfl⟩
    · exact List.mem_map.mpr ⟨r2, List.mem_filter.mpr
        ⟨hr2, decide_eq_true ((mem_rbc2RowKeys_bare r2 _).mpr hd2)⟩, rfl⟩

/-- C3: for every training set and every training row, `get_category` on the
row's exact description and amount returns the row's category when no other
row with a different category shares its amount-tagged lookup key; when two
rows with distinct categories share the key, both exact stages return
nothing and the query can only be resolved by the fuzzy stage, whose answer
carries the `**` marker (proved for both the bank_statement_processor
classifier and the rbc2 cluster variant). -/
theorem get_category_exact_spec
    (wr : String × ℚ → ℚ × String → ℚ) (wr2 : String → String → ℚ)
    (rows : List TrainRow) (r : TrainRow) (hr : r ∈ rows) :
    ((∀ r' ∈ rows, tagKey r' = tagKey r → r'.cat = r.cat) →
        bsp_get_category wr rows r.desc r.amount = some r.cat) ∧
    ((∃ r1 ∈ rows, ∃ r2 ∈ rows, tagKey r1 = tagKey r ∧ tagKey r2 = tagKey r ∧
          r1.cat ≠ r2.cat) →
        bsp_get_category wr rows r.desc r.amount = none ∨
          ∃ c, bsp_get_category wr rows r.desc r.amount = some (c ++ "**")) ∧
    ((∀ r' ∈ rows, tagKey2 r' = tagKey2 r → r'.cat = r.cat) →
        rbc2_get_category wr2 (rbc2Train wr2 rows) r.desc r.amount = some r.cat) ∧
    ((∃ r1 ∈ rows, ∃ r2 ∈ rows, tagKey2 r1 = tagKey2 r ∧ tagKey2 r2 = tagKey2 r ∧
          r1.cat ≠ r2.cat) →
        rbc2_get_category wr2 (rbc2Train wr2 rows) r.desc r.amount = none ∨
          ∃ c, rbc2_get_category wr2 (rbc2Train wr2 rows) r.desc r.amount
            = some (c ++ "**")) := by
  refine ⟨?_, ?_, ?_, ?_⟩
  · intro hcons
    rw [bsp_get_category, catsAt_tagged_unique hr hcons]
  · rintro ⟨r1, hr1, r2, hr2, hk1, hk2, hne⟩
    obtain ⟨hs1, hs2⟩ := catsAt_conflict hr1 hr2 hk1 hk2 hne
    rw [bsp_get_category, hs1, hs2]
    cases hF : bsp_fuzzy wr rows (normalize_description r.desc, roundSig 1 r.amount) with
    | none => exact Or.inl rfl
    | some c => exact Or.inr ⟨c, rfl⟩
  · intro hcons
    rw [rbc2_get_category, rbc2Train_rows, rbc2CatsAt_tagged_unique hr hcons]
  · rintro ⟨r1, hr1, r2, hr2, hk1, hk2, hne⟩
    obtain ⟨hs1, hs2⟩ := rbc2CatsAt_conflict hr1 hr2 hk1 hk2 hne
    rw [rbc2_get_category, rbc2Train_rows, hs1, hs2]
    cases hC : get_category_cluster wr2 (rbc2Train wr2 rows).clusters r.desc 80 with
    | none => exact Or.inl rfl
    | some cl => exact Or.inr ⟨cl.category, rfl⟩

/-- Witness for C3: a single training row is recovered exactly by both
classifier variants (with any scorer, here constantly 0). -/
theorem get_category_exact_spec_witness :
    bsp_get_category (fun _ _ => 0) [⟨"UBER* TRIP TORONTO ON", -5, "Transport"⟩]
      "UBER* TRIP TORONTO ON" (-5) = some "Transport" ∧
    rbc2_get_category (fun _ _ => 0)
      (rbc2Train (fun _ _ => 0) [⟨"UBER* TRIP TORONTO ON", -5, "Transport"⟩])
      "UBER* TRIP TORONTO ON" (-5) = some "Transport" := by
  have h := get_category_exact_spec (fun _ _ => 0) (fun _ _ => 0)
    [⟨"UBER* TRIP TORONTO ON", -5, "Transport"⟩]
    ⟨"UBER* TRIP TORONTO ON", -5, "Transport"⟩ (List.mem_singleton.mpr rfl)
  refine ⟨h.1 ?_, h.2.2.1 ?_⟩
  · intro r' h' _
    rw [List.mem_singleton] at h'
    rw [h']
  · intro r' h' _
    rw [List.mem_singleton] at h'
    rw [h']

theorem fuzzyFold_sound (wr : String × ℚ → ℚ × String → ℚ) (rows : List TrainRow)
    (q : String × ℚ) (K : List (ℚ × String)) :
    ∀ (ks : List (ℚ × String)) (acc : ℚ × Option String),
      (∀ k ∈ ks, k ∈ K) → 90 ≤ acc.1 →
      (∀ c, acc.2 = some c →
        ∃ k ∈ K, uniqueCat (amtCatsAt rows k) = some c ∧ 90 ≤ wr q k) →
      90 ≤ (ks.foldl (fuzzyStep wr rows q) acc).1 ∧
        ∀ c, (ks.foldl (fuzzyStep wr rows q) acc).2 = some c →
          ∃ k ∈ K, uniqueCat (amtCatsAt rows k) = some c ∧ 90 ≤ wr q k
  | [], acc, _, h90, hacc => ⟨h90, hacc⟩
  | k :: ks, acc, hks, h90, hacc => by
    rw [List.foldl_cons]
    have hstep : 90 ≤ (fuzzyStep wr rows q acc k).1 ∧
        ∀ c, (fuzzyStep wr rows q acc k).2 = some c →
          ∃ x ∈ K, uniqueCat (amtCatsAt rows x) = some c ∧ 90 ≤ wr q x := by
      cases huc : uniqueCat (amtCatsAt rows k) with
      | none =>
        have hfs : fuzzyStep wr rows q acc k = acc := by simp [fuzzyStep, huc]
        rw [hfs]
        exact ⟨h90, hacc⟩
      | some c =>
        have hfs : fuzzyStep wr rows q acc k
            = if acc.1 ≤ wr q k then (wr q k, some c) else acc := by
          simp [fuzzyStep, huc]
        rw [hfs]
        by_cases hsc : acc.1 ≤ wr q k
        · rw [if_pos hsc]
          refine ⟨le_trans h90 hsc, ?_⟩
          intro c' hc'
          cases hc'
          exact ⟨k, hks k (List.mem_cons_self k ks), huc, le_trans h90 hsc⟩
        · rw [if_neg hsc]
          exact ⟨h90, hacc⟩
    exact fuzzyFold_sound wr rows q K ks (fuzzyStep wr rows q acc k)
      (fun x hx => hks x (List.mem_cons_of_mem k hx)) hstep.1 hstep.2

theorem fuzzyFold_none (wr : String × ℚ → ℚ × String → ℚ) (rows : List TrainRow)
    (q : String × ℚ) :
    ∀ (ks : List (ℚ × String)),
      (∀ k ∈ ks, ∀ c, uniqueCat (amtCatsAt rows k) = some c → wr q k < 90) →
      ks.foldl (fuzzyStep wr rows q) (90, none) = (90, none)
  | [], _ => rfl
  | k :: ks, h => by
    rw [List.foldl_cons]
    have hstep : fuzzyStep wr rows q (90, none) k = (90, none) := by
      cases huc : uniqueCat (amtCatsAt rows k) with
      | none => simp [fuzzyStep, huc]
      | some c =>
        simp only [fuzzyStep, huc]
        exact if_neg (not_le.mpr (h k (List.mem_cons_self k ks) c huc))
    rw [hstep]
    exact fuzzyFold_none wr rows q ks (fun x hx => h x (List.mem_cons_of_mem k hx))

theorem clusterFold_sound (wr2 : String → String → ℚ) (nd : String)
    (K : List Cluster) (t : ℚ) :
    ∀ (cs : List Cluster) (acc : ℚ × Option Cluster),
      (∀ cl ∈ cs, cl ∈ K) → t - 1 ≤ acc.1 →
      (∀ cl, acc.2 = some cl → cl ∈ K ∧ t - 1 < wr2 nd cl.rep) →
      t - 1 ≤ (cs.foldl (clusterStep wr2 nd) acc).1 ∧
        ∀ cl, (cs.foldl (clusterStep wr2 nd) acc).2 = some cl →
          cl ∈ K ∧ t - 1 < wr2 nd cl.rep
  | [], acc, _, ht, hacc => ⟨ht, hacc⟩
  | cl :: cs, acc, hcs, ht, hacc => by
    rw [List.foldl_cons]
    have hstep : t - 1 ≤ (clusterStep wr2 nd acc cl).1 ∧
        ∀ cl', (clusterStep wr2 nd acc cl).2 = some cl' →
          cl' ∈ K ∧ t - 1 < wr2 nd cl'.rep := by
      unfold clusterStep
      by_cases hsc : acc.1 < wr2 nd cl.rep
      · rw [if_pos hsc]
        refine ⟨le_of_lt (lt_of_le_of_lt ht hsc), ?_⟩
        intro cl' hcl'
        cases hcl'
        exact ⟨hcs cl (List.mem_cons_self cl cs), lt_of_le_of_lt ht hsc⟩
      · rw [if_neg hsc]
        exact ⟨ht, hacc⟩
    exact clusterFold_sound wr2 nd K t cs (clusterStep wr2 nd acc cl)
      (fun x hx => hcs x (List.mem_cons_of_mem cl hx)) hstep.1 hstep.2

theorem clusterFold_none (wr2 : String → String → ℚ) (nd : String) (t : ℚ) :
    ∀ (cs : List Cluster), (∀ cl ∈ cs, wr2 nd cl.rep ≤ t - 1) →
      cs.foldl (clusterStep wr2 nd) (t - 1, none) = (t - 1, none)
  | [], _ => rfl
  | cl :: cs, h => by
    rw [List.foldl_cons]
    have hstep : clusterStep wr2 nd (t - 1, none) cl = (t - 1, none) := by
      unfold clusterStep
      exact if_neg (not_lt.mpr (h cl (List.mem_cons_self cl cs)))
    rw [hstep]
    exact clusterFold_none wr2 nd t cs (fun x hx => h x (List.mem_cons_of_mem cl hx))

/-- C4 (amended): when both exact lookups fail, the
bank_statement_processor fuzzy stage returns a category only if some
single-category amount-training entry scores at least the threshold 90
(and returns nothing when every candidate scores below 90); the rbc2
cluster stage instead returns the best cluster whenever its score strictly
exceeds `threshold - 1`, so its `**` answers are only guaranteed a score
above 79 for the threshold 80, and it returns nothing when every cluster
scores at most `threshold - 1`. -/
theorem get_category_fuzzy_spec
    (wr : String × ℚ → ℚ × String → ℚ) (wr2 : String → String → ℚ)
    (rows : List TrainRow) (st : ClsState) (description : String) (amount : ℚ)
    (hx1 : uniqueCat (catsAt rows
      (some (roundSig 6 amount), normalize_description description)) = none)
    (hx2 : uniqueCat (catsAt rows
      ((none : Option ℚ), normalize_description description)) = none)
    (hx3 : uniqueCat (rbc2CatsAt st.rows
      (some (|amount|).floor.toNat, normalize_description description)) = none)
    (hx4 : uniqueCat (rbc2CatsAt st.rows
      ((none : Option ℕ), normalize_description description)) = none) :
    (∀ res, bsp_get_category wr rows description amount = some res →
        ∃ c k, res = c ++ "**" ∧ k ∈ firstDedup (rows.map amtKey) ∧
          uniqueCat (amtCatsAt rows k) = some c ∧
          90 ≤ wr (normalize_description description, roundSig 1 amount) k) ∧
    ((∀ k ∈ firstDedup (rows.map amtKey), ∀ c, uniqueCat (amtCatsAt rows k) = some c →
          wr (normalize_description description, roundSig 1 amount) k < 90) →
        bsp_get_category wr rows description amount = none) ∧
    (∀ (t : ℚ) (cl : Cluster), get_category_cluster wr2 st.clusters description t = some cl →
        cl ∈ st.clusters ∧ t - 1 < wr2 (nonAlphaNumNorm description) cl.rep) ∧
    (∀ res, rbc2_get_category wr2 st description amount = some res →
        ∃ cl ∈ st.clusters, res = cl.category ++ "**" ∧
          (80 : ℚ) - 1 < wr2 (nonAlphaNumNorm description) cl.rep) ∧
    ((∀ cl ∈ st.clusters, wr2 (nonAlphaNumNorm description) cl.rep ≤ (80 : ℚ) - 1) →
        rbc2_get_category wr2 st description amount = none) := by
  have hcluster : ∀ (t : ℚ) (cl : Cluster),
      get_category_cluster wr2 st.clusters description t = some cl →
      cl ∈ st.clusters ∧ t - 1 < wr2 (nonAlphaNumNorm description) cl.rep := by
    intro t cl hC
    rw [get_category_cluster] at hC
    exact (clusterFold_sound wr2 (nonAlphaNumNorm description) st.clusters t
      st.clusters (t - 1, none) (fun x hx => hx) le_rfl
      (fun cl' hcl' => by cases hcl')).2 cl hC
  refine ⟨?_, ?_, hcluster, ?_, ?_⟩
  · intro res hres
    rw [bsp_get_category, hx1, hx2] at hres
    cases hF : bsp_fuzzy wr rows (normalize_description description, roundSig 1 amount) with
    | none => rw [hF] at hres; cases hres
    | some c =>
      rw [hF] at hres
      have hc := (fuzzyFold_sound wr rows
        (normalize_description description, roundSig 1 amount)
        (firstDedup (rows.map amtKey)) (firstDedup (rows.map amtKey)) (90, none)
        (fun x hx => hx) le_rfl (fun c' hc' => by cases hc')).2 c hF
      obtain ⟨k, hk, huc, hsc⟩ := hc
      cases hres
      exact ⟨c, k, rfl, hk, huc, hsc⟩
  · intro hall
    have hF : bsp_fuzzy wr rows (normalize_description description, roundSig 1 amount)
        = none := by
      rw [bsp_fuzzy, fuzzyFold_none wr rows _ (firstDedup (rows.map amtKey)) hall]
    rw [bsp_get_category, hx1, hx2, hF]
  · intro res hres
    rw [rbc2_get_category, hx3, hx4] at hres
    cases hC : get_category_cluster wr2 st.clusters description 80 with
    | none => rw [hC] at hres; cases hres
    | some cl =>
      rw [hC] at hres
      cases hres
      obtain ⟨hmem, hsc⟩ := hcluster 80 cl hC
      exact ⟨cl, hmem, rfl, hsc⟩
  · intro hall
    have hC : get_category_cluster wr2 st.clusters description 80 = none := by
      rw [get_category_cluster,
        clusterFold_none wr2 (nonAlphaNumNorm description) 80 st.clusters hall]
    rw [rbc2_get_category, hx3, hx4, hC]

/-- Witness for C4 at a concrete instance: with every score equal to 80 the
bank_statement_processor fuzzy stage (threshold 90) yields nothing, and with
every score equal to 70 the rbc2 cluster stage (threshold 80) yields
nothing. -/
theorem get_category_fuzzy_spec_witness :
    bsp_get_category (fun _ _ => 80) [⟨"COFFEE SHOP", 12, "Dining"⟩] "TEA HOUSE" 5
      = none ∧
    rbc2_get_category (fun _ _ => 70)
      ⟨[⟨"COFFEE SHOP", 12, "Dining"⟩],
       [⟨"Dining", ["coffee shop 12"], "coffee shop 12"⟩]⟩ "TEA HOUSE" 5 = none := by
  constructor
  · exact (get_category_fuzzy_spec (fun _ _ => 80) (fun _ _ => 70)
      [⟨"COFFEE SHOP", 12, "Dining"⟩]
      ⟨[⟨"COFFEE SHOP", 12, "Dining"⟩],
       [⟨"Dining", ["coffee shop 12"], "coffee shop 12"⟩]⟩ "TEA HOUSE" 5
      (by with_unfolding_all decide) (by with_unfolding_all decide)
      (by with_unfolding_all decide) (by with_unfolding_all decide)).2.1
      (fun k _ c _ => by norm_num)
  · exact (get_category_fuzzy_spec (fun _ _ => 80) (fun _ _ => 70)
      [⟨"COFFEE SHOP", 12, "Dining"⟩]
      ⟨[⟨"COFFEE SHOP", 12, "Dining"⟩],
       [⟨"Dining", ["coffee shop 12"], "coffee shop 12"⟩]⟩ "TEA HOUSE" 5
      (by with_unfolding_all decide) (by with_unfolding_all decide)
      (by with_unfolding_all decide) (by with_unfolding_all decide)).2.2.2.2
      (fun cl _ => by norm_num)

/-- Counterexample to the literal C4 reading for the rbc2 variant: a scorer
returning 79.5 everywhere is strictly below the threshold 80, yet
`get_category` returns a fuzzy `**` answer, because the loop keeps any
cluster scoring strictly above `threshold - 1 = 79` and never re-checks the
threshold. -/
theorem get_category_fuzzy_counterexample :
    rbc2_get_category (fun _ _ => 159/2)
      (rbc2Train (fun _ _ => 159/2) [⟨"COFFEE SHOP", 12, "Dining"⟩]) "TEA HOUSE" 5
      = some "Dining**" ∧ (159 : ℚ)/2 < 80 := by
  constructor
  · with_unfolding_all rfl
  · norm_num

end BankStmt
